import Mathlib

/-!
Verification development for the onnx-mlir dialect-builder layer
(src/Dialect/Mlir/DialectBuilder.cpp).

We shallowly embed the three builders the specification centres on:

* `MathBuilder`  — arithmetic / cast builder over typed values.  MLIR types are
  modelled by `MlirTy` (scalar element kind plus an optional 1-D vector lane
  count); an SSA value is a `TVal`: its type together with one machine bit
  pattern (a `Nat` below `2^width`) per lane.  Every builder method returns
  `Option (List EmittedOp × TVal)`: `none` models the fatal
  `assert`/`llvm_unreachable` contract violations, and the `List EmittedOp`
  records which IR operations the builder emitted, so that claims about the
  *shape* of the emitted code (reinterpret casts, signless emulation, ...) can
  be stated next to claims about the produced value.  Floating-point operation
  semantics are not shallowly embeddable; they are abstracted into a
  `FloatSem` record of uninterpreted bit-pattern functions, and every theorem
  about integer behaviour holds for all `FloatSem`.

* `MemRefBuilder` — buffer layouts (`MemRefTy`), static/dynamic size folding
  and SIMD-padded allocation.  The symbolic `IndexExpr` arithmetic lives in a
  separate library of the repository that is not part of the provided sources;
  it is modelled from the spec (see `IndexExpr` below).

* `VectorBuilder` — the butterfly merge/reduce network (`mergeHigh`,
  `mergeLow`, `multiReduction`), modelled over an arbitrary commutative
  additive monoid of lane elements.
-/

namespace OnnxMlir

/-! ## Type model -/

/-- MLIR integer signedness: signless (`i32`), signed (`si32`) or unsigned
(`ui32`).  onnx-mlir represents ONNX signed integers as MLIR *signless*
integers and only flags ONNX unsigned integers as MLIR `unsigned` (comment at
the top of DialectBuilder.cpp). -/
inductive Signedness where
  | signless
  | signed
  | unsigned
deriving DecidableEq, Repr

/-- Scalar MLIR element types as used by the builder: integers (with
signedness and bit width), floats (by bit width) and `index`. -/
inductive ScalarTy where
  | int (sgn : Signedness) (width : Nat)
  | float (width : Nat)
  | index
deriving DecidableEq, Repr

/-- An MLIR type that is either a scalar (`lanes = none`) or a 1-D vector of
`n` lanes (`lanes = some n`) of the scalar element type. -/
structure MlirTy where
  scalar : ScalarTy
  lanes : Option Nat
deriving DecidableEq, Repr

namespace ScalarTy

/-- `Type::isa<IntegerType>()` on an element type. -/
def isInteger : ScalarTy → Bool
  | .int _ _ => true
  | _ => false

/-- `Type::isUnsignedInteger()` on an element type. -/
def isUnsignedInteger : ScalarTy → Bool
  | .int .unsigned _ => true
  | _ => false

/-- `Type::isSignlessInteger()` on an element type. -/
def isSignlessInteger : ScalarTy → Bool
  | .int .signless _ => true
  | _ => false

/-- `Type::isInteger(width)`: an integer type of the given width, any
signedness. -/
def isIntegerOfWidth : ScalarTy → Nat → Bool
  | .int _ w, width => w == width
  | _, _ => false

/-- `Type::isa<FloatType>()` on an element type. -/
def isFloat : ScalarTy → Bool
  | .float _ => true
  | _ => false

/-- `Type::getIntOrFloatBitWidth()`; `index` has no int-or-float bit width
(calling it would assert), the callers below only reach it on int/float. -/
def bitwidth : ScalarTy → Nat
  | .int _ w => w
  | .float w => w
  | .index => 0

/-- Bit width used by `arith` integer ops: `index` behaves as a 64-bit
integer on the targets onnx-mlir supports. -/
def arithWidth : ScalarTy → Nat
  | .int _ w => w
  | .float w => w
  | .index => 64

/-- `Type::getIntOrFloatBitWidth()` with its implicit contract: defined for
int and float types only (`none` models the assert on anything else). -/
def intOrFloatBitWidth : ScalarTy → Option Nat
  | .int _ w => some w
  | .float w => some w
  | .index => none

end ScalarTy

namespace MlirTy

/-- `Type::isa<IntegerType>()` on the full type: false for vectors. -/
def isaIntegerType (t : MlirTy) : Bool := t.lanes == none && t.scalar.isInteger

/-- `Type::isUnsignedInteger()` on the full type: false for vectors. -/
def isUnsignedInteger (t : MlirTy) : Bool :=
  t.lanes == none && t.scalar.isUnsignedInteger

/-- `Type::isSignlessInteger()` on the full type: false for vectors. -/
def isSignlessInteger (t : MlirTy) : Bool :=
  t.lanes == none && t.scalar.isSignlessInteger

/-- Number of SSA lanes a value of this type carries (1 for scalars). -/
def laneCount (t : MlirTy) : Nat := t.lanes.getD 1

end MlirTy

/-- `MathBuilder::elementTypeWithVector`: the element type of a vector type,
or the type itself. -/
def elementTypeWithVector (t : MlirTy) : ScalarTy := t.scalar

/-- `MathBuilder::getTypeWithVector`: rebuild a (possibly vector) type from
the vector shape of an existing type and a new element type. -/
def getTypeWithVector (vecType : Option Nat) (elementType : ScalarTy) : MlirTy :=
  ⟨elementType, vecType⟩

/-- `MathBuilder::isIntegerWithVector`: element type is integer or index. -/
def isIntegerWithVector (t : MlirTy) : Bool :=
  (elementTypeWithVector t).isInteger || (elementTypeWithVector t) == .index

/-- `MathBuilder::isUnsignedIntegerWithVector`. -/
def isUnsignedIntegerWithVector (t : MlirTy) : Bool :=
  (elementTypeWithVector t).isUnsignedInteger

/-- `MathBuilder::isFloatWithVector`. -/
def isFloatWithVector (t : MlirTy) : Bool := (elementTypeWithVector t).isFloat

/-! ## Values and bit-pattern helpers -/

/-- An SSA value handle: its MLIR type and one `width`-bit pattern per lane
(scalars carry exactly one lane). -/
structure TVal where
  ty : MlirTy
  lanes : List Nat
deriving DecidableEq, Repr

/-- Two's-complement reading of a `w`-bit pattern. -/
def toSigned (w : Nat) (bits : Nat) : Int :=
  if bits < 2 ^ (w - 1) then (bits : Int) else (bits : Int) - 2 ^ w

/-- Bit pattern of sign-extending a `w`-bit pattern to `w'` bits
(`arith.extsi`). -/
def sextBits (w w' : Nat) (bits : Nat) : Nat :=
  ((toSigned w bits) % ((2 : Int) ^ w')).toNat

/-- The IR operations the builder can emit, recorded so that theorems can
speak about the structure of the generated code, not only the value. -/
inductive EmittedOp where
  | unrealizedCast (dest : MlirTy)
  | arithConstant (ty : MlirTy)
  | splat (ty : MlirTy)
  | addI
  | addUIExtended
  | addF
  | subI
  | subF
  | mulI
  | mulUIExtended
  | mulF
  | cmpINe
  | cmpFNe
  | indexCast (dest : MlirTy)
  | extUI (dest : MlirTy)
  | extSI (dest : MlirTy)
  | truncI (dest : MlirTy)
  | extF (dest : MlirTy)
  | truncF (dest : MlirTy)
  | fpToUI (dest : MlirTy)
  | fpToSI (dest : MlirTy)
  | uiToFP (dest : MlirTy)
  | siToFP (dest : MlirTy)
deriving DecidableEq, Repr

/-- Abstract bit-level semantics of the floating-point operations the builder
delegates to MLIR `arith`.  Each field maps (source width, dest width, source
bit pattern) — or (width, lhs, rhs) for the binary ones — to a result bit
pattern.  All integer-behaviour theorems below hold for every `FloatSem`. -/
structure FloatSem where
  addF : Nat → Nat → Nat → Nat
  subF : Nat → Nat → Nat → Nat
  mulF : Nat → Nat → Nat → Nat
  extF : Nat → Nat → Nat → Nat
  truncF : Nat → Nat → Nat → Nat
  fpToUI : Nat → Nat → Nat → Nat
  fpToSI : Nat → Nat → Nat → Nat
  uiToFP : Nat → Nat → Nat → Nat
  siToFP : Nat → Nat → Nat → Nat
  cmpNe : Nat → Nat → Nat → Bool
  ofIntBits : Nat → Int → Nat

/-- A concrete, intentionally trivial `FloatSem` instance used to state closed
witness/counterexample theorems (which never depend on its values). -/
def flatFloatSem : FloatSem where
  addF := fun _ _ _ => 0
  subF := fun _ _ _ => 0
  mulF := fun _ _ _ => 0
  extF := fun _ _ _ => 0
  truncF := fun _ _ _ => 0
  fpToUI := fun _ _ _ => 0
  fpToSI := fun _ _ _ => 0
  uiToFP := fun _ _ _ => 0
  siToFP := fun _ _ _ => 0
  cmpNe := fun _ _ _ => false
  ofIntBits := fun _ _ => 0

namespace MathBuilder

/-- `MathBuilder::castToSignless(val, width)`: reinterpret a non-signless
integer value as a signless integer of the given width via an
`UnrealizedConversionCastOp`; the bit pattern is untouched.  Fatal
(`none`) unless the element type is an integer type that is not signless
(the source asserts "Expecting signed integer type"). -/
def castToSignless (val : TVal) (width : Nat) : Option (List EmittedOp × TVal) :=
  let valType := val.ty
  let vecType := valType.lanes
  let valElemType := elementTypeWithVector valType
  if valElemType.isInteger && !valElemType.isSignlessInteger then
    let destType := getTypeWithVector vecType (.int .signless width)
    some ([.unrealizedCast destType], { ty := destType, lanes := val.lanes })
  else none

/-- `MathBuilder::castToUnsigned(val, width)`: reinterpret an integer value
as an unsigned integer of the given width via an
`UnrealizedConversionCastOp`; the bit pattern is untouched.  Fatal (`none`)
unless the element type is an integer type. -/
def castToUnsigned (val : TVal) (width : Nat) : Option (List EmittedOp × TVal) :=
  let valType := val.ty
  let vecType := valType.lanes
  let valElemType := elementTypeWithVector valType
  if valElemType.isInteger then
    let destType := getTypeWithVector vecType (.int .unsigned width)
    some ([.unrealizedCast destType], { ty := destType, lanes := val.lanes })
  else none

/-- `MathBuilder::add`.  Unsigned integer elements are emulated: reinterpret
both operands as signless of the same width, take the sum of
`arith.addui_extended` (the low `w` bits, i.e. wraparound), reinterpret the
result back as unsigned.  Other integer (and index) elements use
`arith.addi`; float elements use `arith.addf`. -/
def add (fs : FloatSem) (lhs rhs : TVal) : Option (List EmittedOp × TVal) :=
  if lhs.ty ≠ rhs.ty then none
  else if isIntegerWithVector lhs.ty then
    let elemType := elementTypeWithVector lhs.ty
    if elemType.isUnsignedInteger then
      let elemWidth := elemType.bitwidth
      match castToSignless lhs elemWidth, castToSignless rhs elemWidth with
      | some (ops1, castLhs), some (ops2, castRhs) =>
        let castAdd : TVal :=
          { ty := castLhs.ty,
            lanes := List.zipWith (fun a b => (a + b) % 2 ^ elemWidth)
              castLhs.lanes castRhs.lanes }
        match castToUnsigned castAdd elemWidth with
        | some (ops3, res) => some (ops1 ++ ops2 ++ [.addUIExtended] ++ ops3, res)
        | none => none
      | _, _ => none
    else
      let w := elemType.arithWidth
      some ([.addI],
        { ty := lhs.ty,
          lanes := List.zipWith (fun a b => (a + b) % 2 ^ w) lhs.lanes rhs.lanes })
  else if isFloatWithVector lhs.ty then
    let w := (elementTypeWithVector lhs.ty).bitwidth
    some ([.addF],
      { ty := lhs.ty, lanes := List.zipWith (fs.addF w) lhs.lanes rhs.lanes })
  else none

/-- `MathBuilder::sub`: no unsigned emulation and no unsigned variant —
integer (and index) elements always use plain `arith.subi` directly on the
given operands, floats use `arith.subf`. -/
def sub (fs : FloatSem) (lhs rhs : TVal) : Option (List EmittedOp × TVal) :=
  if lhs.ty ≠ rhs.ty then none
  else if isIntegerWithVector lhs.ty then
    let w := (elementTypeWithVector lhs.ty).arithWidth
    some ([.subI],
      { ty := lhs.ty,
        lanes := List.zipWith
          (fun a b => (((a : Int) - (b : Int)) % ((2 : Int) ^ w)).toNat)
          lhs.lanes rhs.lanes })
  else if isFloatWithVector lhs.ty then
    let w := (elementTypeWithVector lhs.ty).bitwidth
    some ([.subF],
      { ty := lhs.ty, lanes := List.zipWith (fs.subF w) lhs.lanes rhs.lanes })
  else none

/-- `MathBuilder::mul`.  Unsigned integer elements are emulated exactly like
`add`, with the low part of `arith.mului_extended` (wraparound product);
other integer (and index) elements use `arith.muli`, floats `arith.mulf`. -/
def mul (fs : FloatSem) (lhs rhs : TVal) : Option (List EmittedOp × TVal) :=
  if lhs.ty ≠ rhs.ty then none
  else if isIntegerWithVector lhs.ty then
    let elemType := elementTypeWithVector lhs.ty
    if elemType.isUnsignedInteger then
      let elemWidth := elemType.bitwidth
      match castToSignless lhs elemWidth, castToSignless rhs elemWidth with
      | some (ops1, castLhs), some (ops2, castRhs) =>
        let castMul : TVal :=
          { ty := castLhs.ty,
            lanes := List.zipWith (fun a b => (a * b) % 2 ^ elemWidth)
              castLhs.lanes castRhs.lanes }
        match castToUnsigned castMul elemWidth with
        | some (ops3, res) => some (ops1 ++ ops2 ++ [.mulUIExtended] ++ ops3, res)
        | none => none
      | _, _ => none
    else
      let w := elemType.arithWidth
      some ([.mulI],
        { ty := lhs.ty,
          lanes := List.zipWith (fun a b => (a * b) % 2 ^ w) lhs.lanes rhs.lanes })
  else if isFloatWithVector lhs.ty then
    let w := (elementTypeWithVector lhs.ty).bitwidth
    some ([.mulF],
      { ty := lhs.ty, lanes := List.zipWith (fs.mulF w) lhs.lanes rhs.lanes })
  else none

/-- `MathBuilder::neq` (used by `cast` for boolean destinations): requires
identical operand types; integer (or index) elements compare with
`arith.cmpi ne` on the bit patterns, float elements with `arith.cmpf one`
(abstracted by `FloatSem.cmpNe`); the result is an `i1` (vector of `i1`)
value with lanes `1`/`0`. -/
def neq (fs : FloatSem) (lhs rhs : TVal) : Option (List EmittedOp × TVal) :=
  if lhs.ty ≠ rhs.ty then none
  else if isIntegerWithVector lhs.ty then
    some ([.cmpINe],
      ⟨getTypeWithVector lhs.ty.lanes (.int .signless 1),
        List.zipWith (fun a b => if a ≠ b then 1 else 0) lhs.lanes rhs.lanes⟩)
  else if isFloatWithVector lhs.ty then
    let w := (elementTypeWithVector lhs.ty).bitwidth
    some ([.cmpFNe],
      ⟨getTypeWithVector lhs.ty.lanes (.int .signless 1),
        List.zipWith (fun a b => if fs.cmpNe w a b then 1 else 0) lhs.lanes rhs.lanes⟩)
  else none

/-- `MathBuilder::constant(type, val)`: materialize a literal.  The C++ takes
a `double` and asserts `val == (int64_t)val` for integer types; the uses
modelled here pass integral values, so `val : Int`.  A 1-bit integer becomes
a boolean (signless `i1`) constant; an unsigned integer type builds a
signless constant and reinterprets it unsigned (`castToUnsigned`); float
types `f16`/`f32`/`f64` build the float attribute (bit pattern abstracted by
`FloatSem.ofIntBits`), other element kinds are fatal; for vector types the
scalar constant is splat across all lanes. -/
def constant (fs : FloatSem) (type : MlirTy) (val : Int) :
    Option (List EmittedOp × TVal) :=
  let elementType := elementTypeWithVector type
  let scalarRes : Option (List EmittedOp × TVal) :=
    match elementType with
    | .float w =>
        if w = 16 ∨ w = 32 ∨ w = 64 then
          some ([.arithConstant ⟨.float w, none⟩],
            ⟨⟨.float w, none⟩, [fs.ofIntBits w val]⟩)
        else none
    | .int sgn width =>
        if width = 1 then
          some ([.arithConstant ⟨.int .signless 1, none⟩],
            ⟨⟨.int .signless 1, none⟩, [if val ≠ 0 then 1 else 0]⟩)
        else if sgn = .unsigned then
          match castToUnsigned
              ⟨⟨.int .signless width, none⟩, [(val % ((2 : Int) ^ width)).toNat]⟩
              width with
          | some (ops, v) =>
              some ([.arithConstant ⟨.int .signless width, none⟩] ++ ops, v)
          | none => none
        else
          some ([.arithConstant ⟨.int sgn width, none⟩],
            ⟨⟨.int sgn width, none⟩, [(val % ((2 : Int) ^ width)).toNat]⟩)
    | .index =>
        some ([.arithConstant ⟨.index, none⟩],
          ⟨⟨.index, none⟩, [(val % ((2 : Int) ^ 64)).toNat]⟩)
  match scalarRes with
  | none => none
  | some (ops, c) =>
      match type.lanes with
      | none => some (ops, c)
      | some n =>
          some (ops ++ [.splat type], ⟨type, List.replicate n (c.lanes.getD 0 0)⟩)

/-- `MathBuilder::cast(destType, src)` — the full conversion matrix, ported
branch for branch.  Note that the integer-to-integer case tests the *full*
`srcType`/`destType` with `isa<IntegerType>` (DialectBuilder.cpp:726), so a
vector integer-to-integer cast falls through every branch into the final
`llvm_unreachable` (`none`). -/
def cast (fs : FloatSem) (destType₀ : MlirTy) (src₀ : TVal) :
    Option (List EmittedOp × TVal) :=
  let srcType₀ := src₀.ty
  let srcVecType := srcType₀.lanes
  let destVecType := destType₀.lanes
  -- assert: don't mix vectors and scalars
  if srcVecType.isSome ≠ destVecType.isSome then none
  -- check if we even need a cast
  else if srcType₀ = destType₀ then some ([], src₀)
  else
  -- index source: convert to a signless i64 first
  let idxStep : List EmittedOp × TVal × MlirTy × ScalarTy :=
    if (elementTypeWithVector srcType₀) = .index then
      let srcElemType : ScalarTy := .int .signless 64
      let srcType := getTypeWithVector srcVecType srcElemType
      ([.indexCast srcType], ⟨srcType, src₀.lanes⟩, srcType, srcElemType)
    else ([], src₀, srcType₀, elementTypeWithVector srcType₀)
  let ops₀ := idxStep.1
  let src := idxStep.2.1
  let srcType := idxStep.2.2.1
  let srcElemType := idxStep.2.2.2
  -- index destination: treated as a signless i64 until the very last step
  let destIsIndex := (elementTypeWithVector destType₀) = .index
  let savedDestType := destType₀
  let destStep : MlirTy × ScalarTy :=
    if destIsIndex then
      (getTypeWithVector destVecType (.int .signless 64), .int .signless 64)
    else (destType₀, elementTypeWithVector destType₀)
  let destType := destStep.1
  let destElemType := destStep.2
  -- only integer or float supported from here on
  if ¬(srcElemType.isInteger || srcElemType.isFloat) then none
  else if ¬(destElemType.isInteger || destElemType.isFloat) then none
  else
  let srcElemWidth := srcElemType.bitwidth
  let destElemWidth := destElemType.bitwidth
  let bitExtend := srcElemWidth < destElemWidth
  let bitTrunc := srcElemWidth > destElemWidth
  -- boolean source: booleans are unsigned
  if srcElemType.isIntegerOfWidth 1 then
    if destElemType.isFloat then
      some (ops₀ ++ [.uiToFP destType],
        ⟨destType, src.lanes.map (fs.uiToFP srcElemWidth destElemWidth)⟩)
    else
      -- arith.extui: zero-extension keeps the bit pattern
      if destIsIndex then
        some (ops₀ ++ [.extUI destType, .indexCast savedDestType],
          ⟨savedDestType, src.lanes⟩)
      else some (ops₀ ++ [.extUI destType], ⟨destType, src.lanes⟩)
  -- boolean destination: compare to be unequal zero
  else if destElemType.isIntegerOfWidth 1 then
    let step : Option (List EmittedOp × MlirTy × TVal) :=
      if srcElemType.isInteger && !srcElemType.isSignlessInteger then
        let srcElemWidth' := srcElemType.bitwidth
        let constantType := getTypeWithVector srcVecType (.int .signless srcElemWidth')
        match castToSignless src srcElemWidth' with
        | some (o, src') => some (ops₀ ++ o, constantType, src')
        | none => none
      else some (ops₀, srcType, src)
    match step with
    | none => none
    | some (ops₁, constantType, src') =>
        match constant fs constantType 0 with
        | none => none
        | some (o₂, zero) =>
            match neq fs src' zero with
            | none => none
            | some (o₃, res) => some (ops₁ ++ o₂ ++ o₃, res)
  -- float to float
  else if srcElemType.isFloat && destElemType.isFloat then
    if bitExtend then
      some (ops₀ ++ [.extF destType],
        ⟨destType, src.lanes.map (fs.extF srcElemWidth destElemWidth)⟩)
    else if bitTrunc then
      some (ops₀ ++ [.truncF destType],
        ⟨destType, src.lanes.map (fs.truncF srcElemWidth destElemWidth)⟩)
    else none   -- assert(bitExtend || bitTrunc)
  -- float to int
  else if srcElemType.isFloat && destElemType.isInteger then
    if destType.isUnsignedInteger then
      let castType : MlirTy := ⟨.int .signless destElemWidth, none⟩
      let c : TVal := ⟨castType, src.lanes.map (fs.fpToUI srcElemWidth destElemWidth)⟩
      match castToUnsigned c destElemWidth with
      | some (o, res) => some (ops₀ ++ [.fpToUI castType] ++ o, res)
      | none => none
    else
      if destIsIndex then
        some (ops₀ ++ [.fpToSI destType, .indexCast savedDestType],
          ⟨savedDestType, src.lanes.map (fs.fpToSI srcElemWidth destElemWidth)⟩)
      else
        some (ops₀ ++ [.fpToSI destType],
          ⟨destType, src.lanes.map (fs.fpToSI srcElemWidth destElemWidth)⟩)
  -- int to float
  else if srcElemType.isInteger && destElemType.isFloat then
    if srcElemType.isUnsignedInteger then
      match castToSignless src srcElemWidth with
      | some (o, c) =>
          some (ops₀ ++ o ++ [.uiToFP destType],
            ⟨destType, c.lanes.map (fs.uiToFP srcElemWidth destElemWidth)⟩)
      | none => none
    else
      some (ops₀ ++ [.siToFP destType],
        ⟨destType, src.lanes.map (fs.siToFP srcElemWidth destElemWidth)⟩)
  -- int to int: note the full-type tests (vectors fall through to none)
  else if srcType.isaIntegerType && destType.isaIntegerType then
    if srcType.isUnsignedInteger then
      if srcElemWidth = destElemWidth ∧ destType.isSignlessInteger then
        match castToSignless src srcElemWidth with
        | some (o, res) => some (ops₀ ++ o, res)
        | none => none
      else if ¬(bitExtend ∨ bitTrunc) then none   -- assert
      else
        match castToSignless src srcElemWidth with
        | none => none
        | some (o₁, cast₀) =>
            let castType : MlirTy := ⟨.int .signless destElemWidth, none⟩
            let step2 : List EmittedOp × TVal :=
              if bitExtend then ([.extUI castType], ⟨castType, cast₀.lanes⟩)
              else ([.truncI castType],
                ⟨castType, cast₀.lanes.map (· % 2 ^ destElemWidth)⟩)
            if destType.isUnsignedInteger then
              match castToUnsigned step2.2 destElemWidth with
              | some (o₃, res) => some (ops₀ ++ o₁ ++ step2.1 ++ o₃, res)
              | none => none
            else some (ops₀ ++ o₁ ++ step2.1, step2.2)
    else
      if srcElemWidth = destElemWidth ∧ destType.isUnsignedInteger then
        match castToUnsigned src srcElemWidth with
        | some (o, res) => some (ops₀ ++ o, res)
        | none => none
      else
        let step2 : List EmittedOp × TVal :=
          if bitExtend then
            ([.extSI destType],
              ⟨destType, src.lanes.map (sextBits srcElemWidth destElemWidth)⟩)
          else if bitTrunc then
            ([.truncI destType],
              ⟨destType, src.lanes.map (· % 2 ^ destElemWidth)⟩)
          else ([], src)
        if destIsIndex then
          some (ops₀ ++ step2.1 ++ [.indexCast ⟨.index, none⟩],
            ⟨⟨.index, none⟩, step2.2.lanes⟩)
        else if destType.isUnsignedInteger then
          match castToUnsigned step2.2 destElemWidth with
          | some (o₃, res) => some (ops₀ ++ step2.1 ++ o₃, res)
          | none => none
        else some (ops₀ ++ step2.1, step2.2)
  else none   -- llvm_unreachable("unsupported element type")

/-- Result of `MathBuilder::negativeInfAttr` / `positiveInfAttr`: either the
IEEE infinity attribute of a float type (held symbolically — the source
stores the C++ `±infinity` double into a float attribute) or an integer
attribute, i.e. an `APInt` bit pattern of the given width. -/
inductive InfAttr where
  | floatInf (width : Nat) (negative : Bool)
  | intAttr (sgn : Signedness) (width : Nat) (bits : Nat)
deriving DecidableEq, Repr

/-- `MathBuilder::negativeInfAttr`: `TypeSwitch` over the type.  `f32`/`f64`
yield the IEEE negative infinity; integer types of width 8/16/32/64 yield
`intN_t` min for signless/signed and `uintN_t` min (0) for unsigned, stored
as `APInt(width, value)`, i.e. the value's width-bit two's-complement
pattern; every other type or width hits `llvm_unreachable`. -/
def negativeInfAttr (type : MlirTy) : Option InfAttr :=
  match type.lanes, type.scalar with
  | none, .float w =>
      if w = 32 then some (.floatInf 32 true)
      else if w = 64 then some (.floatInf 64 true)
      else none
  | none, .int sgn width =>
      if width = 8 ∨ width = 16 ∨ width = 32 ∨ width = 64 then
        let value : Int :=
          if sgn = .signless ∨ sgn = .signed then -((2 : Int) ^ (width - 1)) else 0
        some (.intAttr sgn width ((value % ((2 : Int) ^ width)).toNat))
      else none
  | _, _ => none

/-- `MathBuilder::positiveInfAttr`: as `negativeInfAttr` but with IEEE
positive infinity and the `intN_t`/`uintN_t` max values (for `uint64_t` the
C++ conversion to `int64_t` is modular, and `APInt(64, -1)` is the all-ones
pattern, so the stored pattern is uniformly `2^width - 1`). -/
def positiveInfAttr (type : MlirTy) : Option InfAttr :=
  match type.lanes, type.scalar with
  | none, .float w =>
      if w = 32 then some (.floatInf 32 false)
      else if w = 64 then some (.floatInf 64 false)
      else none
  | none, .int sgn width =>
      if width = 8 ∨ width = 16 ∨ width = 32 ∨ width = 64 then
        let value : Int :=
          if sgn = .signless ∨ sgn = .signed then (2 : Int) ^ (width - 1) - 1
          else (2 : Int) ^ width - 1
        some (.intAttr sgn width ((value % ((2 : Int) ^ width)).toNat))
      else none
  | _, _ => none

/-- `MathBuilder::negativeInf`: materializes `negativeInfAttr` as an
`arith.constant`; the attribute fully determines the constant. -/
def negativeInf (type : MlirTy) : Option InfAttr := negativeInfAttr type

/-- `MathBuilder::positiveInf`: materializes `positiveInfAttr` as an
`arith.constant`. -/
def positiveInf (type : MlirTy) : Option InfAttr := positiveInfAttr type

end MathBuilder

/-! ## Index expressions and memory layouts -/

/-- Integer ceiling division (for a positive divisor). -/
def intCeilDiv (a b : Int) : Int := (a + b - 1).ediv b

/-- Modelled from the spec: the symbolic `IndexExpr` arithmetic library
(src/Dialect/Mlir/IndexExpr.cpp of the repository) is not among the provided
sources; only its use sites in DialectBuilder.cpp are.  Per the spec, an
Index Expression is "a symbolic arithmetic expression over literal integers
and run-time-valued dimensions, closed under add/multiply/ceiling-divide",
with the invariant that "an expression is literal iff every sub-term is
literal; literal folding is applied eagerly at each construction step".
`sym i` denotes the `i`-th run-time value (an MLIR SSA symbol). -/
inductive IndexExpr where
  | lit (v : Int)
  | sym (id : Nat)
  | add (a b : IndexExpr)
  | mul (a b : IndexExpr)
  | ceilDiv (a b : IndexExpr)
deriving DecidableEq, Repr

namespace IndexExpr

/-- Eager literal folding for `+` (spec: folding at each construction step). -/
def mkAdd : IndexExpr → IndexExpr → IndexExpr
  | .lit a, .lit b => .lit (a + b)
  | a, b => .add a b

/-- Eager literal folding for `*`. -/
def mkMul : IndexExpr → IndexExpr → IndexExpr
  | .lit a, .lit b => .lit (a * b)
  | a, b => .mul a b

/-- Eager literal folding for ceiling division. -/
def mkCeilDiv : IndexExpr → IndexExpr → IndexExpr
  | .lit a, .lit b => .lit (intCeilDiv a b)
  | a, b => .ceilDiv a b

/-- Value of an expression under an environment for the run-time symbols. -/
def eval (env : Nat → Int) : IndexExpr → Int
  | .lit v => v
  | .sym i => env i
  | .add a b => a.eval env + b.eval env
  | .mul a b => a.eval env * b.eval env
  | .ceilDiv a b => intCeilDiv (a.eval env) (b.eval env)

/-- `IndexExpr::isLiteral`: every sub-term is literal. -/
def isLiteral : IndexExpr → Bool
  | .lit _ => true
  | .sym _ => false
  | .add a b => a.isLiteral && b.isLiteral
  | .mul a b => a.isLiteral && b.isLiteral
  | .ceilDiv a b => a.isLiteral && b.isLiteral

/-- `IndexExpr::getLiteral` (meaningful only when `isLiteral`). -/
def getLiteral : IndexExpr → Int
  | .lit v => v
  | _ => 0

/-- `IndexExpr::getShape`: a literal gives a static extent, anything else is
a dynamic (`ShapedType::kDynamic`) dimension. -/
def toShape : IndexExpr → Option Nat
  | .lit v => some v.toNat
  | _ => none

end IndexExpr

/-- An MLIR `MemRefType`: element type, shape (with `none` standing for
`ShapedType::kDynamic`), and whether the layout is the identity layout
(`hasNonIdentityLayout` is its negation). -/
structure MemRefTy where
  elem : MlirTy
  shape : List (Option Nat)
  identity : Bool
deriving DecidableEq, Repr

/-- Number of dynamic extents of a shape. -/
def numDynDims (shape : List (Option Nat)) : Nat := shape.countP Option.isNone

/-- Product of the static extents of a shape (the `staticSize`
accumulation of `getStaticAndDynamicMemSize`). -/
def staticSizeOf (shape : List (Option Nat)) : Int :=
  shape.foldl (fun acc o => match o with | some v => acc * v | none => acc) 1

/-- The dynamic-size expression accumulated by
`getStaticAndDynamicMemSize`: the running product of the symbols. -/
def dynExprOf (d : IndexExpr) (syms : List Nat) : IndexExpr :=
  syms.foldl (fun acc sy => acc.mkMul (.sym sy)) d

/-- Product of the run-time values of the dynamic symbols. -/
def dynProd (env : Nat → Int) (syms : List Nat) : Int := (syms.map env).prod

/-- A memref-typed SSA value handle: an identity plus its type. -/
structure MemVal where
  id : Nat
  ty : MemRefTy
deriving DecidableEq, Repr

namespace MemRefBuilder

/-- The loop of `MemRefBuilder::getStaticAndDynamicMemSize`: walk the shape;
a static extent multiplies `staticSize`, a dynamic extent asserts
`!staticShape` and that another dynamic symbol remains (fatal otherwise) and
multiplies it into `dynSize`.  Surplus symbols are never touched. -/
def memSizeGo (staticShape : Bool) :
    List (Option Nat) → List Nat → Int → IndexExpr →
    Option (Int × IndexExpr × Bool)
  | [], _, s, d => some (s, d, staticShape)
  | some v :: rest, syms, s, d => memSizeGo staticShape rest syms (s * v) d
  | none :: rest, syms, s, d =>
      if staticShape then none          -- assert(!staticShape)
      else
        match syms with
        | [] => none                    -- assert(iDim < dynSymbols.size())
        | sy :: more => memSizeGo staticShape rest more s (d.mkMul (.sym sy))

/-- `MemRefBuilder::getStaticAndDynamicMemSize(type, dynSymbols, ...)`:
rejects vector element types; `staticShape` is `dynSymbols.size() == 0`;
folds the shape into the static product and the symbolic dynamic product
and returns whether the shape was (deemed) fully static. -/
def getStaticAndDynamicMemSize (type : MemRefTy) (dynSymbols : List Nat) :
    Option (Int × IndexExpr × Bool) :=
  if type.elem.lanes.isSome then none   -- assert: unsupported vector type
  else memSizeGo (dynSymbols.length == 0) type.shape dynSymbols 1 (.lit 1)

/-- What `alignedAllocWithSimdPadding` allocates: either the unpadded layout
directly (via `alignedAlloc`), or a padded 1-D byte buffer of
`totPaddedByteSize` bytes with a zero-offset view of the original type over
it.  `paddingSize` (in elements) and the byte-buffer type are recorded so
that theorems can speak about them. -/
inductive AllocResult where
  | unpadded (type : MemRefTy) (dynSymbols : List Nat) (alignment : Int)
  | padded (paddingSize : Int) (totPaddedByteSize : IndexExpr)
      (paddedAllocType : MemRefTy) (viewType : MemRefTy)
      (dynSymbols : List Nat) (alignment : Int)
deriving DecidableEq, Repr

/-- `MemRefBuilder::alignedAllocWithSimdPadding(type, dynSymbols,
simdUnroll, alignment)`, ported step for step; `machineVectorLength` is the
external MachineVectorProfile (`VectorBuilder::getMachineVectorLength`). -/
def alignedAllocWithSimdPadding (machineVectorLength : ScalarTy → Nat)
    (type : MemRefTy) (dynSymbols : List Nat) (simdUnroll : Int)
    (alignment : Int) : Option AllocResult :=
  let elementType := type.elem
  if !type.identity then none                 -- assert: unsupported layout
  else if elementType.lanes.isSome then none  -- assert: unsupported vector type
  else if simdUnroll < 1 then none            -- assert(simdUnroll >= 1)
  else
    match getStaticAndDynamicMemSize type dynSymbols with
    | none => none
    | some (staticSize, dynSize, staticShape) =>
      let VL : Int := (machineVectorLength elementType.scalar : Int) * simdUnroll
      -- static size a multiple of VL: no padding, allocate unpadded layout
      if staticSize % VL == 0 then some (.unpadded type dynSymbols alignment)
      else
        -- VL is an upper bound on the padding; exact amount if fully static
        let paddingSize : Int := if staticShape then VL - staticSize % VL else VL
        match elementType.scalar.intOrFloatBitWidth with
        | none => none      -- getIntOrFloatBitWidth() has no meaning on index
        | some bitWidth =>
          let totPaddedByteSize : IndexExpr :=
            if bitWidth % 8 == 0 then
              -- whole-byte elements
              let byteWidth : Int := (bitWidth / 8 : Nat)
              let totByteSize := IndexExpr.mkMul (.lit (staticSize * byteWidth)) dynSize
              IndexExpr.mkAdd totByteSize (.lit (paddingSize * byteWidth))
            else
              -- sub-byte elements: total bits, then ceil-divide by 8
              let totBitSize := IndexExpr.mkMul (.lit (staticSize * bitWidth)) dynSize
              let totPaddedBitSize :=
                IndexExpr.mkAdd totBitSize (.lit (paddingSize * bitWidth))
              IndexExpr.mkCeilDiv totPaddedBitSize (.lit 8)
          -- assert: a static shape must give a literal padded size
          if staticShape && !totPaddedByteSize.isLiteral then none
          else
            let paddedAllocType : MemRefTy :=
              if totPaddedByteSize.isLiteral then
                ⟨⟨.int .signless 8, none⟩, [some totPaddedByteSize.getLiteral.toNat], true⟩
              else ⟨⟨.int .signless 8, none⟩, [none], true⟩
            some (.padded paddingSize totPaddedByteSize paddedAllocType
              type dynSymbols alignment)

/-- Result of `MemRefBuilder::reshapeToFlat`: either the original value
unchanged (no reshape emitted) or a reshape to the computed output type; in
both cases the flattened-size output is returned. -/
inductive ReshapeResult where
  | noop (original : MemVal) (flattenedSize : IndexExpr)
  | reshaped (outputType : MemRefTy) (original : MemVal)
      (flattenedSize : IndexExpr)
deriving DecidableEq, Repr

/-- `MemRefBuilder::reshapeToFlat(valToReshape, dims, flattenedSize,
dimsToFlatten)`: flatten the innermost `dimsToFlatten` dimensions (−1 means
all).  The number of flattened elements is the product of the innermost
`dimsToFlatten` dimension expressions (the source wraps each `dims[d]` in a
fresh-scope `SymbolIndexExpr`, which denotes the same run-time value;
modelled as the expression itself).  `dimsToFlatten == 1` returns the
original value before any reshape is built. -/
def reshapeToFlat (valToReshape : MemVal) (dims : List IndexExpr)
    (dimsToFlatten₀ : Int) : Option ReshapeResult :=
  let inputType := valToReshape.ty
  let inputRank : Int := inputType.shape.length
  if inputRank ≠ dims.length then none          -- assert: rank mismatch
  else if !inputType.identity then none         -- assert: not normalized
  else
    let dimsToFlatten := if dimsToFlatten₀ = -1 then inputRank else dimsToFlatten₀
    if ¬(0 < dimsToFlatten ∧ dimsToFlatten ≤ inputRank) then none  -- assert
    else
      let numOfFlattenedElements :=
        (dims.drop (inputRank - dimsToFlatten).toNat).foldl
          (fun acc d => acc.mkMul d) (IndexExpr.lit 1)
      let flattenedSize := numOfFlattenedElements
      if dimsToFlatten = 1 then
        -- flattening the last dim alone is no flattening at all
        some (.noop valToReshape flattenedSize)
      else
        let outputRank := inputRank - dimsToFlatten + 1
        let outputShape :=
          (List.range outputRank.toNat).map (fun (d : Nat) =>
            (if (d : Int) = outputRank - 1 then numOfFlattenedElements
             else dims.getD d (.lit 1)).toShape)
        some (.reshaped ⟨inputType.elem, outputShape, true⟩ valToReshape
          flattenedSize)

end MemRefBuilder

/-! ## The vector butterfly-reduction engine

`VectorBuilder::mergeHigh` / `mergeLow` / `multiReduction`.  A 1-D vector
value is a `List α` of lanes; the elementwise `MathBuilder::add` used by the
reduction is modelled as the addition of an arbitrary commutative additive
monoid `α` (exact arithmetic — the claim's own caveat about floating-point
reassociation is what this abstraction captures: the theorems hold for every
associative-commutative lane addition, and the pairing order is additionally
pinned down by the reference network `butterflyGroupRef` below). -/

namespace VectorBuilder

variable {α : Type} [AddCommMonoid α]

/-- `vector.shuffle`: result lane `i` selects entry `mask[i]` of the
concatenation of the two operands. -/
def shuffle (lhs rhs : List α) (mask : List Nat) : List α :=
  mask.map (fun i => (lhs ++ rhs).getD i 0)

/-- `VectorBuilder::isPowerOf2`. -/
def isPowerOf2 (num : Nat) : Bool := num &&& (num - 1) == 0

/-- `VectorBuilder::getLengthOf1DVector` (a `List α` is inherently a 1-D
vector value here). -/
def getLengthOf1DVector (vec : List α) : Nat := vec.length

/-- The shuffle mask built by `VectorBuilder::mergeHigh`: for each of the
`VL/(2*step)` pairs `p`, one `step`-sized run from the LHS first half
(`p*step + e`) then one from the RHS first half (`VL + p*step + e`; the RHS
offset is `VL` for the shuffle op). -/
def mergeHighMask (VL step : Nat) : List Nat :=
  (List.range (VL / (2 * step))).flatMap (fun p =>
    (List.range step).map (fun e => p * step + e) ++
    (List.range step).map (fun e => VL + p * step + e))

/-- The shuffle mask built by `VectorBuilder::mergeLow`: as `mergeHighMask`
but starting from the second halves (`secondHalf = VL / 2`). -/
def mergeLowMask (VL step : Nat) : List Nat :=
  (List.range (VL / (2 * step))).flatMap (fun p =>
    (List.range step).map (fun e => VL / 2 + p * step + e) ++
    (List.range step).map (fun e => VL / 2 + VL + p * step + e))

/-- The shuffle performed by `mergeHigh` once its asserts pass. -/
def mergeHighCore (lhs rhs : List α) (step : Nat) : List α :=
  shuffle lhs rhs (mergeHighMask lhs.length step)

/-- The shuffle performed by `mergeLow` once its asserts pass. -/
def mergeLowCore (lhs rhs : List α) (step : Nat) : List α :=
  shuffle lhs rhs (mergeLowMask lhs.length step)

/-- `VectorBuilder::mergeHigh(lhs, rhs, step)`: asserts equal vector lengths
and a power-of-two length, then applies the interleaving shuffle. -/
def mergeHigh (lhs rhs : List α) (step : Nat) : Option (List α) :=
  let VL := getLengthOf1DVector lhs
  if getLengthOf1DVector rhs ≠ VL then none
  else if ¬ isPowerOf2 VL then none
  else some (mergeHighCore lhs rhs step)

/-- `VectorBuilder::mergeLow(lhs, rhs, step)`. -/
def mergeLow (lhs rhs : List α) (step : Nat) : Option (List α) :=
  let VL := getLengthOf1DVector lhs
  if getLengthOf1DVector rhs ≠ VL then none
  else if ¬ isPowerOf2 VL then none
  else some (mergeLowCore lhs rhs step)

/-- Elementwise `MathBuilder::add` of two vectors (one add per lane). -/
def vadd (a b : List α) : List α := List.zipWith (· + ·) a b

/-- The inner pair loop of `multiReduction` for one `step` value: for each
pair `p < numPairs`, combine `tmp[r+2p]` and `tmp[r+2p+1]` by
`mergeHigh + mergeLow` and add, storing the sum back at `tmp[r+p]`. -/
def innerPairLoop (step numPairs r : Nat) (tmp : List (List α)) :
    Option (List (List α)) :=
  (List.range numPairs).foldl
    (fun acc p => acc.bind (fun t =>
      match mergeHigh (t.getD (r + 2 * p) []) (t.getD (r + 2 * p + 1) []) step,
            mergeLow (t.getD (r + 2 * p) []) (t.getD (r + 2 * p + 1) []) step with
      | some highVal, some lowVal => some (t.set (r + p) (vadd highVal lowVal))
      | _, _ => none))
    (some tmp)

/-- The step loop of `multiReduction` for one group starting at `r`:
`for (step = 1; step < machineVL; step *= 2)`, running the inner pair loop
and halving `numPairs` each iteration.  The loop is given `machineVL` fuel,
which always covers the `log2(machineVL)` iterations the guard allows. -/
def stepLoop (machineVL r : Nat) :
    Nat → Nat → Nat → List (List α) → Option (List (List α))
  | 0, _, _, tmp => some tmp
  | fuel + 1, step, numPairs, tmp =>
      if step < machineVL then
        match innerPairLoop step numPairs r tmp with
        | none => none
        | some tmp' => stepLoop machineVL r fuel (step * 2) (numPairs / 2) tmp'
      else some tmp

/-- The outer group loop of `multiReduction`:
`for (r = 0; r < N; r += machineVL)`, emitting `tmp[r]` after each group's
step loop completes. -/
def groupLoop (machineVL : Nat) :
    Nat → Nat → List (List α) → List (List α) → Option (List (List α))
  | 0, _, _, out => some out
  | g + 1, r, tmp, out =>
      match stepLoop machineVL r machineVL 1 (machineVL / 2) tmp with
      | none => none
      | some tmp' => groupLoop machineVL g (r + machineVL) tmp' (out ++ [tmp'.getD r []])

/-- `VectorBuilder::multiReduction(inputVecArray, outputVecArray)`:
asserts a non-empty input, `VL == machineVL` (with `VL` the length of the
first input vector and `machineVL` the machine vector length for the element
type, supplied here as a parameter), `N % machineVL == 0`, and that all
inputs have length `VL`; then reduces each contiguous group of `machineVL`
vectors through the butterfly network. -/
def multiReduction (machineVL : Nat) (inputVecArray : List (List α)) :
    Option (List (List α)) :=
  let N := inputVecArray.length
  if N = 0 then none
  else
    let VL := getLengthOf1DVector (inputVecArray.getD 0 [])
    if VL ≠ machineVL then none
    else if N % machineVL ≠ 0 then none
    else if inputVecArray.any (fun v => getLengthOf1DVector v ≠ VL) then none
    else groupLoop machineVL (N / machineVL) 0 inputVecArray []

/-- Functional reference for one inner pair loop: combine consecutive pairs
in order (`tmp[2p], tmp[2p+1] ↦ mergeHigh + mergeLow`). -/
def pairCombine (step : Nat) : List (List α) → List (List α)
  | a :: b :: rest =>
      vadd (mergeHighCore a b step) (mergeLowCore a b step) :: pairCombine step rest
  | _ => []

/-- Functional reference for the step loop: iterate `pairCombine` with the
step doubling from 1 while it is below `machineVL`. -/
def collapseAux (machineVL : Nat) : Nat → Nat → List (List α) → List (List α)
  | 0, _, vs => vs
  | c + 1, step, vs =>
      if step < machineVL then
        collapseAux machineVL c (2 * step) (pairCombine step vs)
      else vs

/-- The direct pairwise-sum reference for one group of `machineVL` input
vectors, using exactly the network's pairing order. -/
def butterflyGroupRef (machineVL : Nat) (group : List (List α)) : List α :=
  (collapseAux machineVL machineVL 1 group).getD 0 []

/-- The contiguous group of `n` vectors starting at offset `r`. -/
def groupSlice (tmp : List (List α)) (r n : Nat) : List (List α) :=
  (tmp.drop r).take n

end VectorBuilder

/-! ## Claim theorems for the arithmetic builder -/

/-- C1: for every pair of same-width unsigned-integer operands (scalar or
vector, any width `w`), `MathBuilder::add` and `MathBuilder::mul` reinterpret
both operands as same-width signless integers (two `UnrealizedConversionCast`
ops), perform the signless extended-arithmetic op (`arith.addui_extended`
sum / `arith.mului_extended` low part), reinterpret the result back as
unsigned, and the produced lanes are exactly the mathematically correct
unsigned results modulo `2^w`, including overflow wraparound. -/
theorem C1_unsigned_add_mul_signless_emulation_wraps (fs : FloatSem)
    (vec : Option Nat) (w : Nat) (l1 l2 : List Nat) :
    MathBuilder.add fs ⟨⟨.int .unsigned w, vec⟩, l1⟩ ⟨⟨.int .unsigned w, vec⟩, l2⟩ =
      some ([.unrealizedCast ⟨.int .signless w, vec⟩,
             .unrealizedCast ⟨.int .signless w, vec⟩,
             .addUIExtended,
             .unrealizedCast ⟨.int .unsigned w, vec⟩],
        ⟨⟨.int .unsigned w, vec⟩, List.zipWith (fun a b => (a + b) % 2 ^ w) l1 l2⟩) ∧
    MathBuilder.mul fs ⟨⟨.int .unsigned w, vec⟩, l1⟩ ⟨⟨.int .unsigned w, vec⟩, l2⟩ =
      some ([.unrealizedCast ⟨.int .signless w, vec⟩,
             .unrealizedCast ⟨.int .signless w, vec⟩,
             .mulUIExtended,
             .unrealizedCast ⟨.int .unsigned w, vec⟩],
        ⟨⟨.int .unsigned w, vec⟩, List.zipWith (fun a b => (a * b) % 2 ^ w) l1 l2⟩) := by
  constructor <;>
    simp [MathBuilder.add, MathBuilder.mul, MathBuilder.castToSignless,
      MathBuilder.castToUnsigned, isIntegerWithVector, elementTypeWithVector,
      ScalarTy.isInteger, ScalarTy.isUnsignedInteger, ScalarTy.isSignlessInteger,
      ScalarTy.bitwidth, getTypeWithVector]

/-- C10: for every pair of unsigned-integer operands of identical type,
`MathBuilder::sub` emits exactly one plain signless `arith.subi` directly on
the unsigned-typed operands — no `UnrealizedConversionCast` reinterpretation
(unlike `add`/`mul`) and no dedicated unsigned instruction variant (unlike
`div`/`rem`/`min`/`max`); the result keeps the unsigned operand type and the
lanes wrap modulo `2^w`. -/
theorem C10_sub_plain_signless_on_unsigned (fs : FloatSem)
    (vec : Option Nat) (w : Nat) (l1 l2 : List Nat) :
    MathBuilder.sub fs ⟨⟨.int .unsigned w, vec⟩, l1⟩ ⟨⟨.int .unsigned w, vec⟩, l2⟩ =
      some ([.subI],
        ⟨⟨.int .unsigned w, vec⟩,
          List.zipWith
            (fun a b => (((a : Int) - (b : Int)) % ((2 : Int) ^ w)).toNat) l1 l2⟩) := by
  simp [MathBuilder.sub, isIntegerWithVector, elementTypeWithVector,
    ScalarTy.isInteger, ScalarTy.arithWidth]

/-- C6 counterexample: the claim quantifies over *every* integer-typed value,
but `castToSignless` asserts that its operand is not signless ("Expecting
signed integer type"), so for a signless `i8` value the composition
`castToUnsigned(castToSignless(v, 8), 8)` aborts fatally instead of being the
identity on the bit pattern. -/
theorem C6_counterexample_signless_input_aborts :
    ((MathBuilder.castToSignless ⟨⟨.int .signless 8, none⟩, [5]⟩ 8).bind
      (fun p => MathBuilder.castToUnsigned p.2 8)) = none := by
  decide

/-- C6 (amended): for every *signed- or unsigned-* integer-typed value `v`
of width `w` (scalar or vector), `castToUnsigned(castToSignless(v, w), w)`
succeeds and is the identity on the bit pattern of `v`: both steps are
zero-cost `UnrealizedConversionCast` reinterpretations and the final value
carries exactly the lanes of `v` (at the unsigned type of width `w`). -/
theorem C6_roundtrip_preserves_bitpattern (sgn : Signedness) (hs : sgn ≠ .signless)
    (w : Nat) (vec : Option Nat) (lanes : List Nat) :
    ∃ ops₁ v₁ ops₂,
      MathBuilder.castToSignless ⟨⟨.int sgn w, vec⟩, lanes⟩ w = some (ops₁, v₁) ∧
      MathBuilder.castToUnsigned v₁ w =
        some (ops₂, ⟨⟨.int .unsigned w, vec⟩, lanes⟩) := by
  cases sgn with
  | signless => exact absurd rfl hs
  | signed =>
      refine ⟨[.unrealizedCast ⟨.int .signless w, vec⟩],
        ⟨⟨.int .signless w, vec⟩, lanes⟩,
        [.unrealizedCast ⟨.int .unsigned w, vec⟩], ?_, ?_⟩ <;>
        simp [MathBuilder.castToSignless, MathBuilder.castToUnsigned,
          elementTypeWithVector, ScalarTy.isInteger, ScalarTy.isSignlessInteger,
          getTypeWithVector]
  | unsigned =>
      refine ⟨[.unrealizedCast ⟨.int .signless w, vec⟩],
        ⟨⟨.int .signless w, vec⟩, lanes⟩,
        [.unrealizedCast ⟨.int .unsigned w, vec⟩], ?_, ?_⟩ <;>
        simp [MathBuilder.castToSignless, MathBuilder.castToUnsigned,
          elementTypeWithVector, ScalarTy.isInteger, ScalarTy.isSignlessInteger,
          getTypeWithVector]

/-- Witness for C6_roundtrip_preserves_bitpattern at a concrete input:
an unsigned `ui8` value with bit pattern 200 round-trips. -/
theorem C6_roundtrip_preserves_bitpattern_witness :
    (Signedness.unsigned ≠ Signedness.signless) ∧
    ∃ ops₁ v₁ ops₂,
      MathBuilder.castToSignless ⟨⟨.int .unsigned 8, none⟩, [200]⟩ 8 = some (ops₁, v₁) ∧
      MathBuilder.castToUnsigned v₁ 8 =
        some (ops₂, ⟨⟨.int .unsigned 8, none⟩, [200]⟩) :=
  ⟨by decide, C6_roundtrip_preserves_bitpattern .unsigned (by decide) 8 none [200]⟩

/-! ### Specification lemmas for the scalar integer-to-integer `cast` paths

These helper lemmas characterize, one branch at a time, the four
integer-to-integer sub-cases of `MathBuilder::cast` on scalar types (recall
that onnx-mlir encodes ONNX *signed* integers as MLIR *signless* ones, so
"signed" below is the signless case).  Width hypotheses `2 ≤ w` keep us out
of the separately handled boolean (`i1`) paths. -/

theorem cast_identity (fs : FloatSem) (t : MlirTy) (lanes : List Nat) :
    MathBuilder.cast fs t ⟨t, lanes⟩ = some ([], ⟨t, lanes⟩) := by
  simp [MathBuilder.cast]

theorem cast_unsigned_to_signless_same (fs : FloatSem) (w b : Nat) (hw : 2 ≤ w) :
    MathBuilder.cast fs ⟨.int .signless w, none⟩ ⟨⟨.int .unsigned w, none⟩, [b]⟩ =
      some ([.unrealizedCast ⟨.int .signless w, none⟩],
        ⟨⟨.int .signless w, none⟩, [b]⟩) := by
  have hw1 : w ≠ 1 := by omega
  simp [MathBuilder.cast, MathBuilder.castToSignless, elementTypeWithVector,
    getTypeWithVector, ScalarTy.isInteger, ScalarTy.isFloat, ScalarTy.isIntegerOfWidth,
    ScalarTy.isSignlessInteger, ScalarTy.isUnsignedInteger, ScalarTy.bitwidth,
    MlirTy.isaIntegerType, MlirTy.isUnsignedInteger, MlirTy.isSignlessInteger, hw1]

theorem cast_signless_to_unsigned_same (fs : FloatSem) (w b : Nat) (hw : 2 ≤ w) :
    MathBuilder.cast fs ⟨.int .unsigned w, none⟩ ⟨⟨.int .signless w, none⟩, [b]⟩ =
      some ([.unrealizedCast ⟨.int .unsigned w, none⟩],
        ⟨⟨.int .unsigned w, none⟩, [b]⟩) := by
  have hw1 : w ≠ 1 := by omega
  simp [MathBuilder.cast, MathBuilder.castToUnsigned, elementTypeWithVector,
    getTypeWithVector, ScalarTy.isInteger, ScalarTy.isFloat, ScalarTy.isIntegerOfWidth,
    ScalarTy.isSignlessInteger, ScalarTy.isUnsignedInteger, ScalarTy.bitwidth,
    MlirTy.isaIntegerType, MlirTy.isUnsignedInteger, MlirTy.isSignlessInteger, hw1]

theorem cast_unsigned_to_unsigned_ext (fs : FloatSem) (w w' b : Nat)
    (hw : 2 ≤ w) (hlt : w < w') :
    MathBuilder.cast fs ⟨.int .unsigned w', none⟩ ⟨⟨.int .unsigned w, none⟩, [b]⟩ =
      some ([.unrealizedCast ⟨.int .signless w, none⟩,
             .extUI ⟨.int .signless w', none⟩,
             .unrealizedCast ⟨.int .unsigned w', none⟩],
        ⟨⟨.int .unsigned w', none⟩, [b]⟩) := by
  have hw1 : w ≠ 1 := by omega
  have hw1' : w' ≠ 1 := by omega
  have hne : w ≠ w' := by omega
  simp [MathBuilder.cast, MathBuilder.castToSignless, MathBuilder.castToUnsigned,
    elementTypeWithVector, getTypeWithVector, ScalarTy.isInteger, ScalarTy.isFloat,
    ScalarTy.isIntegerOfWidth, ScalarTy.isSignlessInteger, ScalarTy.isUnsignedInteger,
    ScalarTy.bitwidth, MlirTy.isaIntegerType, MlirTy.isUnsignedInteger,
    MlirTy.isSignlessInteger, hw1, hw1', hne, hlt, Nat.not_lt_of_lt hlt]

theorem cast_unsigned_to_unsigned_trunc (fs : FloatSem) (w w' b : Nat)
    (hw' : 2 ≤ w') (hlt : w' < w) :
    MathBuilder.cast fs ⟨.int .unsigned w', none⟩ ⟨⟨.int .unsigned w, none⟩, [b]⟩ =
      some ([.unrealizedCast ⟨.int .signless w, none⟩,
             .truncI ⟨.int .signless w', none⟩,
             .unrealizedCast ⟨.int .unsigned w', none⟩],
        ⟨⟨.int .unsigned w', none⟩, [b % 2 ^ w']⟩) := by
  have hw1 : w ≠ 1 := by omega
  have hw1' : w' ≠ 1 := by omega
  have hne : w ≠ w' := by omega
  simp [MathBuilder.cast, MathBuilder.castToSignless, MathBuilder.castToUnsigned,
    elementTypeWithVector, getTypeWithVector, ScalarTy.isInteger, ScalarTy.isFloat,
    ScalarTy.isIntegerOfWidth, ScalarTy.isSignlessInteger, ScalarTy.isUnsignedInteger,
    ScalarTy.bitwidth, MlirTy.isaIntegerType, MlirTy.isUnsignedInteger,
    MlirTy.isSignlessInteger, hw1, hw1', hne, hlt, Nat.not_lt_of_lt hlt]

theorem cast_unsigned_to_signless_ext (fs : FloatSem) (w w' b : Nat)
    (hw : 2 ≤ w) (hlt : w < w') :
    MathBuilder.cast fs ⟨.int .signless w', none⟩ ⟨⟨.int .unsigned w, none⟩, [b]⟩ =
      some ([.unrealizedCast ⟨.int .signless w, none⟩,
             .extUI ⟨.int .signless w', none⟩],
        ⟨⟨.int .signless w', none⟩, [b]⟩) := by
  have hw1 : w ≠ 1 := by omega
  have hw1' : w' ≠ 1 := by omega
  have hne : w ≠ w' := by omega
  simp [MathBuilder.cast, MathBuilder.castToSignless, MathBuilder.castToUnsigned,
    elementTypeWithVector, getTypeWithVector, ScalarTy.isInteger, ScalarTy.isFloat,
    ScalarTy.isIntegerOfWidth, ScalarTy.isSignlessInteger, ScalarTy.isUnsignedInteger,
    ScalarTy.bitwidth, MlirTy.isaIntegerType, MlirTy.isUnsignedInteger,
    MlirTy.isSignlessInteger, hw1, hw1', hne, hlt, Nat.not_lt_of_lt hlt]

theorem cast_unsigned_to_signless_trunc (fs : FloatSem) (w w' b : Nat)
    (hw' : 2 ≤ w') (hlt : w' < w) :
    MathBuilder.cast fs ⟨.int .signless w', none⟩ ⟨⟨.int .unsigned w, none⟩, [b]⟩ =
      some ([.unrealizedCast ⟨.int .signless w, none⟩,
             .truncI ⟨.int .signless w', none⟩],
        ⟨⟨.int .signless w', none⟩, [b % 2 ^ w']⟩) := by
  have hw1 : w ≠ 1 := by omega
  have hw1' : w' ≠ 1 := by omega
  have hne : w ≠ w' := by omega
  simp [MathBuilder.cast, MathBuilder.castToSignless, MathBuilder.castToUnsigned,
    elementTypeWithVector, getTypeWithVector, ScalarTy.isInteger, ScalarTy.isFloat,
    ScalarTy.isIntegerOfWidth, ScalarTy.isSignlessInteger, ScalarTy.isUnsignedInteger,
    ScalarTy.bitwidth, MlirTy.isaIntegerType, MlirTy.isUnsignedInteger,
    MlirTy.isSignlessInteger, hw1, hw1', hne, hlt, Nat.not_lt_of_lt hlt]

theorem cast_signless_to_unsigned_ext (fs : FloatSem) (w w' b : Nat)
    (hw : 2 ≤ w) (hlt : w < w') :
    MathBuilder.cast fs ⟨.int .unsigned w', none⟩ ⟨⟨.int .signless w, none⟩, [b]⟩ =
      some ([.extSI ⟨.int .unsigned w', none⟩,
             .unrealizedCast ⟨.int .unsigned w', none⟩],
        ⟨⟨.int .unsigned w', none⟩, [sextBits w w' b]⟩) := by
  have hw1 : w ≠ 1 := by omega
  have hw1' : w' ≠ 1 := by omega
  have hne : w ≠ w' := by omega
  simp [MathBuilder.cast, MathBuilder.castToSignless, MathBuilder.castToUnsigned,
    elementTypeWithVector, getTypeWithVector, ScalarTy.isInteger, ScalarTy.isFloat,
    ScalarTy.isIntegerOfWidth, ScalarTy.isSignlessInteger, ScalarTy.isUnsignedInteger,
    ScalarTy.bitwidth, MlirTy.isaIntegerType, MlirTy.isUnsignedInteger,
    MlirTy.isSignlessInteger, hw1, hw1', hne, hlt, Nat.not_lt_of_lt hlt]

theorem cast_signless_to_unsigned_trunc (fs : FloatSem) (w w' b : Nat)
    (hw' : 2 ≤ w') (hlt : w' < w) :
    MathBuilder.cast fs ⟨.int .unsigned w', none⟩ ⟨⟨.int .signless w, none⟩, [b]⟩ =
      some ([.truncI ⟨.int .unsigned w', none⟩,
             .unrealizedCast ⟨.int .unsigned w', none⟩],
        ⟨⟨.int .unsigned w', none⟩, [b % 2 ^ w']⟩) := by
  have hw1 : w ≠ 1 := by omega
  have hw1' : w' ≠ 1 := by omega
  have hne : w ≠ w' := by omega
  simp [MathBuilder.cast, MathBuilder.castToSignless, MathBuilder.castToUnsigned,
    elementTypeWithVector, getTypeWithVector, ScalarTy.isInteger, ScalarTy.isFloat,
    ScalarTy.isIntegerOfWidth, ScalarTy.isSignlessInteger, ScalarTy.isUnsignedInteger,
    ScalarTy.bitwidth, MlirTy.isaIntegerType, MlirTy.isUnsignedInteger,
    MlirTy.isSignlessInteger, hw1, hw1', hne, hlt, Nat.not_lt_of_lt hlt]

theorem cast_signless_to_signless_ext (fs : FloatSem) (w w' b : Nat)
    (hw : 2 ≤ w) (hlt : w < w') :
    MathBuilder.cast fs ⟨.int .signless w', none⟩ ⟨⟨.int .signless w, none⟩, [b]⟩ =
      some ([.extSI ⟨.int .signless w', none⟩],
        ⟨⟨.int .signless w', none⟩, [sextBits w w' b]⟩) := by
  have hw1 : w ≠ 1 := by omega
  have hw1' : w' ≠ 1 := by omega
  have hne : w ≠ w' := by omega
  simp [MathBuilder.cast, MathBuilder.castToSignless, MathBuilder.castToUnsigned,
    elementTypeWithVector, getTypeWithVector, ScalarTy.isInteger, ScalarTy.isFloat,
    ScalarTy.isIntegerOfWidth, ScalarTy.isSignlessInteger, ScalarTy.isUnsignedInteger,
    ScalarTy.bitwidth, MlirTy.isaIntegerType, MlirTy.isUnsignedInteger,
    MlirTy.isSignlessInteger, hw1, hw1', hne, hlt, Nat.not_lt_of_lt hlt]

theorem cast_signless_to_signless_trunc (fs : FloatSem) (w w' b : Nat)
    (hw' : 2 ≤ w') (hlt : w' < w) :
    MathBuilder.cast fs ⟨.int .signless w', none⟩ ⟨⟨.int .signless w, none⟩, [b]⟩ =
      some ([.truncI ⟨.int .signless w', none⟩],
        ⟨⟨.int .signless w', none⟩, [b % 2 ^ w']⟩) := by
  have hw1 : w ≠ 1 := by omega
  have hw1' : w' ≠ 1 := by omega
  have hne : w ≠ w' := by omega
  simp [MathBuilder.cast, MathBuilder.castToSignless, MathBuilder.castToUnsigned,
    elementTypeWithVector, getTypeWithVector, ScalarTy.isInteger, ScalarTy.isFloat,
    ScalarTy.isIntegerOfWidth, ScalarTy.isSignlessInteger, ScalarTy.isUnsignedInteger,
    ScalarTy.bitwidth, MlirTy.isaIntegerType, MlirTy.isUnsignedInteger,
    MlirTy.isSignlessInteger, hw1, hw1', hne, hlt, Nat.not_lt_of_lt hlt]

/-- Sign-extending a `w`-bit pattern to `w' ≥ w` bits and truncating back to
`w` bits is the identity. -/
theorem sextBits_mod_self (w w' b : Nat) (hb : b < 2 ^ w) (hle : w ≤ w') :
    sextBits w w' b % 2 ^ w = b := by
  have hdvd : ((2 : Int) ^ w) ∣ (2 : Int) ^ w' := pow_dvd_pow 2 hle
  have hbI : (b : Int) < 2 ^ w := by exact_mod_cast hb
  have hx : toSigned w b % (2 : Int) ^ w = (b : Int) := by
    unfold toSigned
    by_cases hsmall : b < 2 ^ (w - 1)
    · simp only [hsmall, if_true]
      exact Int.emod_eq_of_lt (by positivity) hbI
    · simp only [hsmall, if_false]
      rw [Int.sub_emod, Int.emod_self, sub_zero,
        Int.emod_emod_of_dvd _ (dvd_refl _)]
      exact Int.emod_eq_of_lt (by positivity) hbI
  have hy : (0 : Int) ≤ toSigned w b % (2 : Int) ^ w' :=
    Int.emod_nonneg _ (by positivity)
  have key : ((sextBits w w' b : Nat) : Int) % (2 : Int) ^ w = (b : Int) := by
    unfold sextBits
    rw [Int.toNat_of_nonneg hy, Int.emod_emod_of_dvd _ hdvd, hx]
  exact_mod_cast key

/-- Vector integer-to-integer casts hit no branch of the matrix: the
integer-to-integer case tests the full types with `isa<IntegerType>`, which
is false for `VectorType`, so a (non-identity) vector int-to-int cast falls
through to the final `llvm_unreachable`. -/
theorem cast_vector_int_int_fatal (fs : FloatSem) (sgn sgn' : Signedness)
    (w w' n : Nat) (lanes : List Nat) (hw : w ≠ 1) (hw' : w' ≠ 1)
    (hne : (MlirTy.mk (.int sgn w) (some n)) ≠ (MlirTy.mk (.int sgn' w') (some n))) :
    MathBuilder.cast fs ⟨.int sgn' w', some n⟩ ⟨⟨.int sgn w, some n⟩, lanes⟩ = none := by
  simp [MathBuilder.cast, elementTypeWithVector, getTypeWithVector,
    ScalarTy.isInteger, ScalarTy.isFloat, ScalarTy.isIntegerOfWidth,
    MlirTy.isaIntegerType, hw, hw', hne]

/-- C4 counterexample: the claim covers "scalar or vector shape", but a
vector `ui8 → i8` same-width cast (which per the claim should reinterpret)
aborts fatally: the integer-to-integer branch of `MathBuilder::cast` tests
`srcType.isa<IntegerType>()` on the full vector type, which fails, so the
cast falls into `llvm_unreachable` instead of performing the conversion. -/
theorem C4_counterexample_vector_cast_fatal :
    MathBuilder.cast flatFloatSem ⟨.int .signless 8, some 4⟩
      ⟨⟨.int .unsigned 8, some 4⟩, [1, 2, 3, 4]⟩ = none := by
  decide

/-- C4 (amended): for *scalar* integer source and destination types of
non-boolean widths, `cast` performs the four-sub-case integer-to-integer
conversion — same-width unsigned→signless reinterprets, same-width
signless→unsigned reinterprets, differing widths zero-extend (unsigned
source, after a signless reinterpret) or sign-extend (signless source) or
truncate, with the unsigned-source path detouring through a signless
intermediate and an unsigned destination reinterpreting the result
unsigned — and in particular casting the signless `int8` value `-1`
(bit pattern 255) to `uint8` yields 255.  Vector-shaped integer-to-integer
casts, by contrast, fail fatally.  (onnx-mlir encodes ONNX signed integers
as MLIR signless integers; `Signedness.signless` plays the claim's
"signed".) -/
theorem C4_cast_int_to_int_subcases (fs : FloatSem) (w w' b : Nat)
    (hw : 2 ≤ w) (hw' : 2 ≤ w') :
    (w = w' →
      MathBuilder.cast fs ⟨.int .signless w', none⟩ ⟨⟨.int .unsigned w, none⟩, [b]⟩ =
        some ([.unrealizedCast ⟨.int .signless w, none⟩],
          ⟨⟨.int .signless w, none⟩, [b]⟩) ∧
      MathBuilder.cast fs ⟨.int .unsigned w', none⟩ ⟨⟨.int .signless w, none⟩, [b]⟩ =
        some ([.unrealizedCast ⟨.int .unsigned w, none⟩],
          ⟨⟨.int .unsigned w, none⟩, [b]⟩)) ∧
    (w < w' →
      MathBuilder.cast fs ⟨.int .unsigned w', none⟩ ⟨⟨.int .unsigned w, none⟩, [b]⟩ =
        some ([.unrealizedCast ⟨.int .signless w, none⟩,
               .extUI ⟨.int .signless w', none⟩,
               .unrealizedCast ⟨.int .unsigned w', none⟩],
          ⟨⟨.int .unsigned w', none⟩, [b]⟩) ∧
      MathBuilder.cast fs ⟨.int .signless w', none⟩ ⟨⟨.int .unsigned w, none⟩, [b]⟩ =
        some ([.unrealizedCast ⟨.int .signless w, none⟩,
               .extUI ⟨.int .signless w', none⟩],
          ⟨⟨.int .signless w', none⟩, [b]⟩) ∧
      MathBuilder.cast fs ⟨.int .unsigned w', none⟩ ⟨⟨.int .signless w, none⟩, [b]⟩ =
        some ([.extSI ⟨.int .unsigned w', none⟩,
               .unrealizedCast ⟨.int .unsigned w', none⟩],
          ⟨⟨.int .unsigned w', none⟩, [sextBits w w' b]⟩) ∧
      MathBuilder.cast fs ⟨.int .signless w', none⟩ ⟨⟨.int .signless w, none⟩, [b]⟩ =
        some ([.extSI ⟨.int .signless w', none⟩],
          ⟨⟨.int .signless w', none⟩, [sextBits w w' b]⟩)) ∧
    (w' < w →
      MathBuilder.cast fs ⟨.int .unsigned w', none⟩ ⟨⟨.int .unsigned w, none⟩, [b]⟩ =
        some ([.unrealizedCast ⟨.int .signless w, none⟩,
               .truncI ⟨.int .signless w', none⟩,
               .unrealizedCast ⟨.int .unsigned w', none⟩],
          ⟨⟨.int .unsigned w', none⟩, [b % 2 ^ w']⟩) ∧
      MathBuilder.cast fs ⟨.int .signless w', none⟩ ⟨⟨.int .unsigned w, none⟩, [b]⟩ =
        some ([.unrealizedCast ⟨.int .signless w, none⟩,
               .truncI ⟨.int .signless w', none⟩],
          ⟨⟨.int .signless w', none⟩, [b % 2 ^ w']⟩) ∧
      MathBuilder.cast fs ⟨.int .unsigned w', none⟩ ⟨⟨.int .signless w, none⟩, [b]⟩ =
        some ([.truncI ⟨.int .unsigned w', none⟩,
               .unrealizedCast ⟨.int .unsigned w', none⟩],
          ⟨⟨.int .unsigned w', none⟩, [b % 2 ^ w']⟩) ∧
      MathBuilder.cast fs ⟨.int .signless w', none⟩ ⟨⟨.int .signless w, none⟩, [b]⟩ =
        some ([.truncI ⟨.int .signless w', none⟩],
          ⟨⟨.int .signless w', none⟩, [b % 2 ^ w']⟩)) ∧
    (∀ sgn sgn' n ls, (MlirTy.mk (.int sgn w) (some n)) ≠ (MlirTy.mk (.int sgn' w') (some n)) →
      MathBuilder.cast fs ⟨.int sgn' w', some n⟩ ⟨⟨.int sgn w, some n⟩, ls⟩ = none) ∧
    MathBuilder.cast fs ⟨.int .unsigned 8, none⟩ ⟨⟨.int .signless 8, none⟩, [255]⟩ =
      some ([.unrealizedCast ⟨.int .unsigned 8, none⟩],
        ⟨⟨.int .unsigned 8, none⟩, [255]⟩) := by
  refine ⟨?_, ?_, ?_, ?_, ?_⟩
  · intro h
    subst h
    exact ⟨cast_unsigned_to_signless_same fs w b hw,
      cast_signless_to_unsigned_same fs w b hw⟩
  · intro hlt
    exact ⟨cast_unsigned_to_unsigned_ext fs w w' b hw hlt,
      cast_unsigned_to_signless_ext fs w w' b hw hlt,
      cast_signless_to_unsigned_ext fs w w' b hw hlt,
      cast_signless_to_signless_ext fs w w' b hw hlt⟩
  · intro hlt
    exact ⟨cast_unsigned_to_unsigned_trunc fs w w' b hw' hlt,
      cast_unsigned_to_signless_trunc fs w w' b hw' hlt,
      cast_signless_to_unsigned_trunc fs w w' b hw' hlt,
      cast_signless_to_signless_trunc fs w w' b hw' hlt⟩
  · intro sgn sgn' n ls hne
    exact cast_vector_int_int_fatal fs sgn sgn' w w' n ls (by omega) (by omega) hne
  · exact cast_signless_to_unsigned_same fs 8 255 (by norm_num)

/-- Witness for C4_cast_int_to_int_subcases: the zero-extension sub-case at
the concrete widths 8 → 16 on the pattern 200. -/
theorem C4_cast_int_to_int_subcases_witness :
    MathBuilder.cast flatFloatSem ⟨.int .unsigned 16, none⟩
      ⟨⟨.int .unsigned 8, none⟩, [200]⟩ =
      some ([.unrealizedCast ⟨.int .signless 8, none⟩,
             .extUI ⟨.int .signless 16, none⟩,
             .unrealizedCast ⟨.int .unsigned 16, none⟩],
        ⟨⟨.int .unsigned 16, none⟩, [200]⟩) :=
  ((C4_cast_int_to_int_subcases flatFloatSem 8 16 200 (by norm_num)
    (by norm_num)).2.1 (by norm_num)).1

/-- C5: `cast` with destination type equal to the source type returns the
source value unchanged (no op is emitted), and for the integer fragment a
lossless intermediate conversion round-trips: for any scalar integer types
`T` (the type of `v`) and `S` of width at least `T`'s — signedness signless
or unsigned, the two kinds onnx-mlir uses for ONNX signed resp. unsigned
integers — `cast(T, cast(S, v))` returns exactly `v`. -/
theorem C5_cast_roundtrip (fs : FloatSem) (v : TVal) (sgnT sgnS : Signedness)
    (w wS b : Nat) (hT : sgnT ≠ .signed) (hS : sgnS ≠ .signed)
    (hw : 2 ≤ w) (hle : w ≤ wS) (hb : b < 2 ^ w) :
    MathBuilder.cast fs v.ty v = some ([], v) ∧
    ∃ ops₁ mid ops₂,
      MathBuilder.cast fs ⟨.int sgnS wS, none⟩ ⟨⟨.int sgnT w, none⟩, [b]⟩ =
        some (ops₁, mid) ∧
      MathBuilder.cast fs ⟨.int sgnT w, none⟩ mid =
        some (ops₂, ⟨⟨.int sgnT w, none⟩, [b]⟩) := by
  have hwS : 2 ≤ wS := le_trans hw hle
  refine ⟨cast_identity fs v.ty v.lanes, ?_⟩
  rcases Nat.lt_or_ge w wS with hlt | hge
  · -- strict widening, then narrowing back
    cases sgnT with
    | signed => exact absurd rfl hT
    | signless =>
        cases sgnS with
        | signed => exact absurd rfl hS
        | signless =>
            refine ⟨_, _, [.truncI ⟨.int .signless w, none⟩],
              cast_signless_to_signless_ext fs w wS b hw hlt, ?_⟩
            rw [cast_signless_to_signless_trunc fs wS w (sextBits w wS b) hw hlt,
              sextBits_mod_self w wS b hb (le_of_lt hlt)]
        | unsigned =>
            refine ⟨_, _, [.unrealizedCast ⟨.int .signless wS, none⟩,
                .truncI ⟨.int .signless w, none⟩],
              cast_signless_to_unsigned_ext fs w wS b hw hlt, ?_⟩
            rw [cast_unsigned_to_signless_trunc fs wS w (sextBits w wS b) hw hlt,
              sextBits_mod_self w wS b hb (le_of_lt hlt)]
    | unsigned =>
        cases sgnS with
        | signed => exact absurd rfl hS
        | signless =>
            refine ⟨_, _, [.truncI ⟨.int .unsigned w, none⟩,
                .unrealizedCast ⟨.int .unsigned w, none⟩],
              cast_unsigned_to_signless_ext fs w wS b hw hlt, ?_⟩
            rw [cast_signless_to_unsigned_trunc fs wS w b hw hlt,
              Nat.mod_eq_of_lt hb]
        | unsigned =>
            refine ⟨_, _, [.unrealizedCast ⟨.int .signless wS, none⟩,
                .truncI ⟨.int .signless w, none⟩,
                .unrealizedCast ⟨.int .unsigned w, none⟩],
              cast_unsigned_to_unsigned_ext fs w wS b hw hlt, ?_⟩
            rw [cast_unsigned_to_unsigned_trunc fs wS w b hw hlt,
              Nat.mod_eq_of_lt hb]
  · -- equal widths: either the identity or a reinterpreting round trip
    have heq : wS = w := le_antisymm (by omega) hle
    subst heq
    cases sgnT with
    | signed => exact absurd rfl hT
    | signless =>
        cases sgnS with
        | signed => exact absurd rfl hS
        | signless =>
            exact ⟨[], _, [], cast_identity fs ⟨.int .signless wS, none⟩ [b],
              cast_identity fs ⟨.int .signless wS, none⟩ [b]⟩
        | unsigned =>
            exact ⟨_, _, [.unrealizedCast ⟨.int .signless wS, none⟩],
              cast_signless_to_unsigned_same fs wS b hw,
              cast_unsigned_to_signless_same fs wS b hw⟩
    | unsigned =>
        cases sgnS with
        | signed => exact absurd rfl hS
        | signless =>
            exact ⟨_, _, [.unrealizedCast ⟨.int .unsigned wS, none⟩],
              cast_unsigned_to_signless_same fs wS b hw,
              cast_signless_to_unsigned_same fs wS b hw⟩
        | unsigned =>
            exact ⟨[], _, [], cast_identity fs ⟨.int .unsigned wS, none⟩ [b],
              cast_identity fs ⟨.int .unsigned wS, none⟩ [b]⟩

/-- Witness for C5_cast_roundtrip: a signless `i8` pattern 200 widened to
`ui16` and narrowed back. -/
theorem C5_cast_roundtrip_witness :
    MathBuilder.cast flatFloatSem
        (⟨⟨.int .signless 8, none⟩, [200]⟩ : TVal).ty
        ⟨⟨.int .signless 8, none⟩, [200]⟩ =
      some ([], ⟨⟨.int .signless 8, none⟩, [200]⟩) ∧
    ∃ ops₁ mid ops₂,
      MathBuilder.cast flatFloatSem ⟨.int .unsigned 16, none⟩
          ⟨⟨.int .signless 8, none⟩, [200]⟩ = some (ops₁, mid) ∧
      MathBuilder.cast flatFloatSem ⟨.int .signless 8, none⟩ mid =
        some (ops₂, ⟨⟨.int .signless 8, none⟩, [200]⟩) :=
  C5_cast_roundtrip flatFloatSem ⟨⟨.int .signless 8, none⟩, [200]⟩
    .signless .unsigned 8 16 200 (by decide) (by decide) (by norm_num)
    (by norm_num) (by norm_num)

/-- C7: `negativeInfAttr`/`positiveInfAttr` (and their `arith.constant`
wrappers `negativeInf`/`positiveInf`) return the IEEE negative/positive
infinity for the supported float types (`f32`, `f64`); for integer types of
width 8, 16, 32 or 64 they return the representable minimum/maximum of the
type's signedness — unsigned min `0` and max `2^w - 1` (as the stored
unsigned pattern), signless/signed min `-2^(w-1)` and max `2^(w-1) - 1` (as
the two's-complement reading of the stored pattern) — and every other width
or element kind fails fatally (`llvm_unreachable`). -/
theorem C7_inf_attrs_extrema (w : Nat) (sgn : Signedness) (t : MlirTy) :
    ((w = 32 ∨ w = 64) →
      MathBuilder.negativeInfAttr ⟨.float w, none⟩ = some (.floatInf w true) ∧
      MathBuilder.positiveInfAttr ⟨.float w, none⟩ = some (.floatInf w false)) ∧
    ((w = 8 ∨ w = 16 ∨ w = 32 ∨ w = 64) →
      ∃ bn bp,
        MathBuilder.negativeInfAttr ⟨.int sgn w, none⟩ = some (.intAttr sgn w bn) ∧
        MathBuilder.positiveInfAttr ⟨.int sgn w, none⟩ = some (.intAttr sgn w bp) ∧
        (sgn = .unsigned → bn = 0 ∧ bp = 2 ^ w - 1) ∧
        (sgn ≠ .unsigned →
          toSigned w bn = -((2 : Int) ^ (w - 1)) ∧
          toSigned w bp = (2 : Int) ^ (w - 1) - 1)) ∧
    (MathBuilder.negativeInfAttr t = none ↔
      ¬(t.lanes = none ∧ (t.scalar = .float 32 ∨ t.scalar = .float 64 ∨
        ∃ s ww, t.scalar = .int s ww ∧ (ww = 8 ∨ ww = 16 ∨ ww = 32 ∨ ww = 64)))) ∧
    MathBuilder.negativeInf t = MathBuilder.negativeInfAttr t ∧
    MathBuilder.positiveInf t = MathBuilder.positiveInfAttr t := by
  refine ⟨?_, ?_, ?_, rfl, rfl⟩
  · rintro (rfl | rfl) <;> exact ⟨rfl, rfl⟩
  · rintro (rfl | rfl | rfl | rfl) <;> cases sgn <;>
      exact ⟨_, _, rfl, rfl, by decide, by decide⟩
  · obtain ⟨s, lanes⟩ := t
    cases lanes with
    | some n =>
        simp [MathBuilder.negativeInfAttr]
    | none =>
        cases s with
        | index => simp [MathBuilder.negativeInfAttr]
        | float fw =>
            by_cases h32 : fw = 32
            · subst h32; simp [MathBuilder.negativeInfAttr]
            · by_cases h64 : fw = 64
              · subst h64; simp [MathBuilder.negativeInfAttr]
              · simp [MathBuilder.negativeInfAttr, h32, h64]
        | int s iw =>
            by_cases hw : iw = 8 ∨ iw = 16 ∨ iw = 32 ∨ iw = 64
            · constructor
              · intro h; exact absurd h (by simp [MathBuilder.negativeInfAttr, hw])
              · intro h; exact absurd ⟨rfl, Or.inr (Or.inr ⟨s, iw, rfl, hw⟩)⟩ h
            · refine iff_of_true (by simp [MathBuilder.negativeInfAttr, hw]) ?_
              rintro ⟨-, h | h | ⟨s1, ww, heq, hww⟩⟩
              · exact ScalarTy.noConfusion h
              · exact ScalarTy.noConfusion h
              · cases heq; exact hw hww

/-! ### Lemmas about index expressions and the memory-size fold -/

theorem IndexExpr.eval_mkAdd (a b : IndexExpr) (env : Nat → Int) :
    (a.mkAdd b).eval env = a.eval env + b.eval env := by
  cases a <;> cases b <;> simp [IndexExpr.mkAdd, IndexExpr.eval]

theorem IndexExpr.eval_mkMul (a b : IndexExpr) (env : Nat → Int) :
    (a.mkMul b).eval env = a.eval env * b.eval env := by
  cases a <;> cases b <;> simp [IndexExpr.mkMul, IndexExpr.eval]

theorem IndexExpr.eval_mkCeilDiv (a b : IndexExpr) (env : Nat → Int) :
    (a.mkCeilDiv b).eval env = intCeilDiv (a.eval env) (b.eval env) := by
  cases a <;> cases b <;> simp [IndexExpr.mkCeilDiv, IndexExpr.eval]

theorem IndexExpr.isLiteral_mkAdd (a b : IndexExpr) :
    (a.mkAdd b).isLiteral = (a.isLiteral && b.isLiteral) := by
  cases a <;> cases b <;> simp [IndexExpr.mkAdd, IndexExpr.isLiteral]

theorem IndexExpr.isLiteral_mkMul (a b : IndexExpr) :
    (a.mkMul b).isLiteral = (a.isLiteral && b.isLiteral) := by
  cases a <;> cases b <;> simp [IndexExpr.mkMul, IndexExpr.isLiteral]

theorem IndexExpr.isLiteral_mkCeilDiv (a b : IndexExpr) :
    (a.mkCeilDiv b).isLiteral = (a.isLiteral && b.isLiteral) := by
  cases a <;> cases b <;> simp [IndexExpr.mkCeilDiv, IndexExpr.isLiteral]

theorem dynExprOf_eval (syms : List Nat) : ∀ (d : IndexExpr) (env : Nat → Int),
    (dynExprOf d syms).eval env = d.eval env * dynProd env syms := by
  induction syms with
  | nil => intro d env; simp [dynExprOf, dynProd]
  | cons sy rest ih =>
      intro d env
      have h1 : dynExprOf d (sy :: rest) = dynExprOf (d.mkMul (.sym sy)) rest := rfl
      rw [h1, ih, IndexExpr.eval_mkMul]
      simp [dynProd, IndexExpr.eval]
      ring

theorem dynExprOf_not_literal (syms : List Nat) (hne : syms ≠ []) :
    ∀ d : IndexExpr, (dynExprOf d syms).isLiteral = false := by
  induction syms with
  | nil => exact absurd rfl hne
  | cons sy rest ih =>
      intro d
      by_cases hr : rest = []
      · subst hr
        show (IndexExpr.mkMul d (.sym sy)).isLiteral = false
        rw [IndexExpr.isLiteral_mkMul]
        simp [IndexExpr.isLiteral]
      · exact ih hr (d.mkMul (.sym sy))

theorem staticSizeOf_foldl (l : List (Option Nat)) : ∀ a : Int,
    l.foldl (fun acc o => match o with | some v => acc * v | none => acc) a =
      a * staticSizeOf l := by
  induction l with
  | nil => intro a; simp [staticSizeOf]
  | cons o rest ih =>
      intro a
      cases o with
      | some v =>
          show rest.foldl _ (a * v) = a * staticSizeOf (some v :: rest)
          rw [ih (a * v)]
          have : staticSizeOf (some v :: rest) = v * staticSizeOf rest := by
            show rest.foldl _ ((1 : Int) * v) = v * staticSizeOf rest
            rw [ih ((1 : Int) * v)]; ring
          rw [this]; ring
      | none =>
          show rest.foldl _ a = a * staticSizeOf (none :: rest)
          rw [ih a]
          have : staticSizeOf (none :: rest) = staticSizeOf rest := by
            show rest.foldl _ (1 : Int) = staticSizeOf rest
            rfl
          rw [this]

theorem memSizeGo_success (shape : List (Option Nat)) :
    ∀ (syms : List Nat) (st : Bool) (s : Int) (d : IndexExpr),
    syms.length = numDynDims shape → (st = true → numDynDims shape = 0) →
    MemRefBuilder.memSizeGo st shape syms s d =
      some (s * staticSizeOf shape, dynExprOf d syms, st) := by
  induction shape with
  | nil =>
      intro syms st s d hlen hst
      have hs : syms = [] :=
        List.eq_nil_of_length_eq_zero (by simpa [numDynDims] using hlen)
      subst hs
      simp [MemRefBuilder.memSizeGo, staticSizeOf, dynExprOf]
  | cons o rest ih =>
      intro syms st s d hlen hst
      cases o with
      | some v =>
          have h1 : numDynDims (some v :: rest) = numDynDims rest := by
            simp [numDynDims]
          rw [show MemRefBuilder.memSizeGo st (some v :: rest) syms s d =
              MemRefBuilder.memSizeGo st rest syms (s * v) d from rfl]
          rw [ih syms st (s * v) d (h1 ▸ hlen) (fun h => h1 ▸ hst h)]
          have h2 : staticSizeOf (some v :: rest) = v * staticSizeOf rest := by
            show rest.foldl _ ((1 : Int) * v) = v * staticSizeOf rest
            rw [staticSizeOf_foldl]; ring
          rw [h2]
          congr 2
          ring
      | none =>
          have h1 : numDynDims (none :: rest) = numDynDims rest + 1 := by
            simp [numDynDims, Nat.add_comm]
          cases st with
          | true => exact absurd (hst rfl) (by omega)
          | false =>
              cases syms with
              | nil => exact absurd hlen (by simp [h1])
              | cons sy more =>
                  rw [show MemRefBuilder.memSizeGo false (none :: rest)
                        (sy :: more) s d =
                      MemRefBuilder.memSizeGo false rest more s
                        (d.mkMul (.sym sy)) from rfl]
                  rw [ih more false s (d.mkMul (.sym sy))
                    (by simp only [List.length_cons, h1] at hlen; omega) (by simp)]
                  have h2 : staticSizeOf (none :: rest) = staticSizeOf rest := rfl
                  rw [h2]
                  rfl

theorem memSizeGo_none_iff (shape : List (Option Nat)) :
    ∀ (syms : List Nat) (st : Bool) (s : Int) (d : IndexExpr),
    (st = true → syms = []) →
    (MemRefBuilder.memSizeGo st shape syms s d = none ↔
      syms.length < numDynDims shape) := by
  induction shape with
  | nil =>
      intro syms st s d hst
      simp [MemRefBuilder.memSizeGo, numDynDims]
  | cons o rest ih =>
      intro syms st s d hst
      cases o with
      | some v =>
          have h1 : numDynDims (some v :: rest) = numDynDims rest := by
            simp [numDynDims]
          rw [show MemRefBuilder.memSizeGo st (some v :: rest) syms s d =
              MemRefBuilder.memSizeGo st rest syms (s * v) d from rfl]
          rw [ih syms st (s * v) d hst, h1]
      | none =>
          have h1 : numDynDims (none :: rest) = numDynDims rest + 1 := by
            simp [numDynDims, Nat.add_comm]
          cases st with
          | true =>
              have hs := hst rfl
              subst hs
              rw [show MemRefBuilder.memSizeGo true (none :: rest) [] s d =
                  none from rfl]
              simp [h1]
          | false =>
              cases syms with
              | nil =>
                  rw [show MemRefBuilder.memSizeGo false (none :: rest) [] s d =
                      none from rfl]
                  simp [h1]
              | cons sy more =>
                  rw [show MemRefBuilder.memSizeGo false (none :: rest)
                        (sy :: more) s d =
                      MemRefBuilder.memSizeGo false rest more s
                        (d.mkMul (.sym sy)) from rfl]
                  rw [ih more false s (d.mkMul (.sym sy)) (by simp), h1]
                  simp [Nat.succ_lt_succ_iff]

/-- Under the count-match contract, `getStaticAndDynamicMemSize` folds the
layout exactly as claimed. -/
theorem getStaticAndDynamicMemSize_eq (type : MemRefTy) (syms : List Nat)
    (hv : type.elem.lanes = none)
    (hcount : syms.length = numDynDims type.shape) :
    MemRefBuilder.getStaticAndDynamicMemSize type syms =
      some (staticSizeOf type.shape, dynExprOf (.lit 1) syms,
        syms.length == 0) := by
  unfold MemRefBuilder.getStaticAndDynamicMemSize
  rw [hv]
  have := memSizeGo_success type.shape syms (syms.length == 0) 1 (.lit 1)
    hcount (by
      intro h
      simp at h
      rw [h] at hcount
      simpa using hcount.symm)
  simpa using this

/-- C8 counterexample: with a fully static layout and one *surplus* dynamic
symbol the symbol counts mismatch (1 supplied vs 0 dynamic extents), yet
`getStaticAndDynamicMemSize` does not fail — it returns the folded sizes
(and, moreover, reports the fully static shape as non-static).  The claimed
"fails if and only if the counts mismatch" is therefore wrong: only a
*deficit* of symbols trips the assertions. -/
theorem C8_counterexample_surplus_symbols_accepted :
    MemRefBuilder.getStaticAndDynamicMemSize
        ⟨⟨.int .signless 32, none⟩, [some 2, some 3], true⟩ [7] =
      some (6, .lit 1, false) ∧
    (1 : Nat) ≠ numDynDims [some 2, some 3] := by
  constructor
  · rfl
  · decide

/-- C8 (amended): for every non-vector-element layout,
`getStaticAndDynamicMemSize` fails (fatal contract violation) if and only if
*fewer* dynamic symbols are supplied than the layout has dynamic extents
(surplus symbols are silently ignored); when the counts match it returns
`staticSize` as the integer product of all static extents, `dynSize` as the
index-expression product of all dynamic symbols, and a flag that is true
exactly when the shape is fully static. -/
theorem C8_mem_size_contract (type : MemRefTy) (syms : List Nat)
    (hv : type.elem.lanes = none) :
    (MemRefBuilder.getStaticAndDynamicMemSize type syms = none ↔
      syms.length < numDynDims type.shape) ∧
    (syms.length = numDynDims type.shape →
      ∃ d, MemRefBuilder.getStaticAndDynamicMemSize type syms =
          some (staticSizeOf type.shape, d, numDynDims type.shape == 0) ∧
        ∀ env, d.eval env = dynProd env syms) := by
  constructor
  · unfold MemRefBuilder.getStaticAndDynamicMemSize
    rw [hv]
    exact memSizeGo_none_iff type.shape syms (syms.length == 0) 1 (.lit 1)
      (by intro h; simpa using h)
  · intro hcount
    refine ⟨dynExprOf (.lit 1) syms, ?_, ?_⟩
    · rw [getStaticAndDynamicMemSize_eq type syms hv hcount]
      congr 2
      rw [hcount]
    · intro env
      rw [dynExprOf_eval]
      simp [IndexExpr.eval]

/-- Witness for C8_mem_size_contract at the layout `[2, ?]` with one
supplied symbol. -/
theorem C8_mem_size_contract_witness :
    (MemRefBuilder.getStaticAndDynamicMemSize
        ⟨⟨.int .signless 32, none⟩, [some 2, none], true⟩ [5] = none ↔
      (([5] : List Nat)).length < numDynDims [some 2, none]) ∧
    ((([5] : List Nat)).length = numDynDims [some 2, none] →
      ∃ d, MemRefBuilder.getStaticAndDynamicMemSize
          ⟨⟨.int .signless 32, none⟩, [some 2, none], true⟩ [5] =
          some (staticSizeOf [some 2, none], d, numDynDims [some 2, none] == 0) ∧
        ∀ env, d.eval env = dynProd env [5]) :=
  C8_mem_size_contract ⟨⟨.int .signless 32, none⟩, [some 2, none], true⟩ [5] rfl

/-- C2: with `VL = machineVectorLength(elementType) * simdUnroll` and
static element count `S = staticSizeOf shape`, `alignedAllocWithSimdPadding`
(for an identity layout, non-vector int/float element of bit width `bw`,
and a matching dynamic-symbol count)
(a) allocates the unpadded layout directly when `S % VL = 0`;
(b) otherwise, for a fully static layout, pads by exactly `VL - S % VL`
elements, the padded byte count is the literal
`S*(bw/8) + padding*(bw/8)` for whole-byte widths (total bits
ceiling-divided by 8 for sub-byte widths), and the byte buffer is a static
1-D `i8` memref of that many bytes;
(c) with any dynamic extent it pads by `VL` elements and the symbolic byte
count evaluates to `(S*(bw/8))*dynSize + VL*(bw/8)` (resp. the bit-level
ceiling formula);
(d) in particular 10 static `float32` elements with `simdUnroll = 1` and
machine width 4 give 2 elements (8 bytes) of padding and a 48-byte
allocation. -/
theorem C2_simd_padded_alloc (mvl : ScalarTy → Nat) (es : ScalarTy) (bw : Nat)
    (shape : List (Option Nat)) (syms : List Nat) (simdUnroll alignment : Int)
    (hbw : es.intOrFloatBitWidth = some bw) (hu : 1 ≤ simdUnroll)
    (hcount : syms.length = numDynDims shape) :
    (staticSizeOf shape % ((mvl es : Int) * simdUnroll) = 0 →
      MemRefBuilder.alignedAllocWithSimdPadding mvl ⟨⟨es, none⟩, shape, true⟩
          syms simdUnroll alignment =
        some (.unpadded ⟨⟨es, none⟩, shape, true⟩ syms alignment)) ∧
    (¬ staticSizeOf shape % ((mvl es : Int) * simdUnroll) = 0 →
      numDynDims shape = 0 →
      ∃ tot : IndexExpr,
        MemRefBuilder.alignedAllocWithSimdPadding mvl ⟨⟨es, none⟩, shape, true⟩
            syms simdUnroll alignment =
          some (.padded
            ((mvl es : Int) * simdUnroll -
              staticSizeOf shape % ((mvl es : Int) * simdUnroll))
            tot ⟨⟨.int .signless 8, none⟩, [some tot.getLiteral.toNat], true⟩
            ⟨⟨es, none⟩, shape, true⟩ syms alignment) ∧
        tot.isLiteral = true ∧
        tot.getLiteral =
          (if bw % 8 = 0 then
            staticSizeOf shape * ((bw / 8 : Nat) : Int) +
              ((mvl es : Int) * simdUnroll -
                staticSizeOf shape % ((mvl es : Int) * simdUnroll)) *
                ((bw / 8 : Nat) : Int)
          else
            intCeilDiv
              (staticSizeOf shape * bw +
                ((mvl es : Int) * simdUnroll -
                  staticSizeOf shape % ((mvl es : Int) * simdUnroll)) * bw)
              8)) ∧
    (¬ staticSizeOf shape % ((mvl es : Int) * simdUnroll) = 0 →
      numDynDims shape ≠ 0 →
      ∃ tot : IndexExpr,
        MemRefBuilder.alignedAllocWithSimdPadding mvl ⟨⟨es, none⟩, shape, true⟩
            syms simdUnroll alignment =
          some (.padded ((mvl es : Int) * simdUnroll) tot
            ⟨⟨.int .signless 8, none⟩, [none], true⟩
            ⟨⟨es, none⟩, shape, true⟩ syms alignment) ∧
        ∀ env, tot.eval env =
          (if bw % 8 = 0 then
            staticSizeOf shape * ((bw / 8 : Nat) : Int) * dynProd env syms +
              ((mvl es : Int) * simdUnroll) * ((bw / 8 : Nat) : Int)
          else
            intCeilDiv
              (staticSizeOf shape * bw * dynProd env syms +
                ((mvl es : Int) * simdUnroll) * bw) 8)) ∧
    (mvl (.float 32) = 4 →
      MemRefBuilder.alignedAllocWithSimdPadding mvl
          ⟨⟨.float 32, none⟩, [some 10], true⟩ [] 1 16 =
        some (.padded 2 (.lit 48) ⟨⟨.int .signless 8, none⟩, [some 48], true⟩
          ⟨⟨.float 32, none⟩, [some 10], true⟩ [] 16)) := by
  have hu' : ¬ (simdUnroll < 1) := not_lt.mpr hu
  refine ⟨?_, ?_, ?_, ?_⟩
  · intro h0
    unfold MemRefBuilder.alignedAllocWithSimdPadding
    rw [getStaticAndDynamicMemSize_eq ⟨⟨es, none⟩, shape, true⟩ syms rfl hcount]
    simp [hu', h0]
  · intro hS hstat
    have hsyms : syms = [] := by
      rw [hstat] at hcount
      exact List.eq_nil_of_length_eq_zero hcount
    subst hsyms
    by_cases hb : bw % 8 = 0
    · refine ⟨.lit ((staticSizeOf shape * ((bw / 8 : Nat) : Int)) * 1 +
        ((mvl es : Int) * simdUnroll -
          staticSizeOf shape % ((mvl es : Int) * simdUnroll)) *
            ((bw / 8 : Nat) : Int)), ?_, rfl, ?_⟩
      · unfold MemRefBuilder.alignedAllocWithSimdPadding
        rw [getStaticAndDynamicMemSize_eq ⟨⟨es, none⟩, shape, true⟩ [] rfl hcount]
        simp [hu', hS, hbw, hb, dynExprOf,
          IndexExpr.mkMul, IndexExpr.mkAdd, IndexExpr.isLiteral,
          IndexExpr.getLiteral]
      · rw [if_pos hb]
        simp [IndexExpr.getLiteral]
    · refine ⟨.lit (intCeilDiv ((staticSizeOf shape * bw) * 1 +
        ((mvl es : Int) * simdUnroll -
          staticSizeOf shape % ((mvl es : Int) * simdUnroll)) * bw) 8),
        ?_, rfl, ?_⟩
      · unfold MemRefBuilder.alignedAllocWithSimdPadding
        rw [getStaticAndDynamicMemSize_eq ⟨⟨es, none⟩, shape, true⟩ [] rfl hcount]
        simp [hu', hS, hbw, hb, dynExprOf,
          IndexExpr.mkMul, IndexExpr.mkAdd, IndexExpr.mkCeilDiv,
          IndexExpr.isLiteral, IndexExpr.getLiteral]
      · rw [if_neg hb]
        simp [IndexExpr.getLiteral]
  · intro hS hdyn
    have hsyne : syms ≠ [] := by
      intro h
      subst h
      simp at hcount
      exact hdyn hcount.symm
    have hlen0 : ¬ (syms.length = 0) := by
      intro h
      exact hsyne (List.eq_nil_of_length_eq_zero h)
    have hlit : (dynExprOf (.lit 1) syms).isLiteral = false :=
      dynExprOf_not_literal syms hsyne _
    by_cases hb : bw % 8 = 0
    · refine ⟨IndexExpr.mkAdd
        (IndexExpr.mkMul (.lit (staticSizeOf shape * ((bw / 8 : Nat) : Int)))
          (dynExprOf (.lit 1) syms))
        (.lit (((mvl es : Int) * simdUnroll) * ((bw / 8 : Nat) : Int))), ?_, ?_⟩
      · unfold MemRefBuilder.alignedAllocWithSimdPadding
        rw [getStaticAndDynamicMemSize_eq ⟨⟨es, none⟩, shape, true⟩ syms rfl hcount]
        simp [hu', hS, hlen0, hbw, hb,
          IndexExpr.isLiteral_mkAdd, IndexExpr.isLiteral_mkMul, hlit,
          IndexExpr.isLiteral]
      · intro env
        rw [if_pos hb, IndexExpr.eval_mkAdd, IndexExpr.eval_mkMul, dynExprOf_eval]
        simp [IndexExpr.eval]
    · refine ⟨IndexExpr.mkCeilDiv
        (IndexExpr.mkAdd
          (IndexExpr.mkMul (.lit (staticSizeOf shape * bw))
            (dynExprOf (.lit 1) syms))
          (.lit (((mvl es : Int) * simdUnroll) * bw)))
        (.lit 8), ?_, ?_⟩
      · unfold MemRefBuilder.alignedAllocWithSimdPadding
        rw [getStaticAndDynamicMemSize_eq ⟨⟨es, none⟩, shape, true⟩ syms rfl hcount]
        simp [hu', hS, hlen0, hbw, hb,
          IndexExpr.isLiteral_mkAdd, IndexExpr.isLiteral_mkMul,
          IndexExpr.isLiteral_mkCeilDiv, hlit, IndexExpr.isLiteral]
      · intro env
        rw [if_neg hb, IndexExpr.eval_mkCeilDiv, IndexExpr.eval_mkAdd,
          IndexExpr.eval_mkMul, dynExprOf_eval]
        simp [IndexExpr.eval]
  · intro h4
    unfold MemRefBuilder.alignedAllocWithSimdPadding
    rw [getStaticAndDynamicMemSize_eq ⟨⟨.float 32, none⟩, [some 10], true⟩ []
      rfl (by decide)]
    norm_num [h4, staticSizeOf, dynExprOf,
      IndexExpr.mkMul, IndexExpr.mkAdd, IndexExpr.isLiteral,
      IndexExpr.getLiteral, ScalarTy.intOrFloatBitWidth]
    decide

/-- Witness for C2_simd_padded_alloc: the claim's own scenario — machine
width 4 for `float32`, 10 static elements, `simdUnroll = 1` — yields
padding 2 elements and a 48-byte buffer. -/
theorem C2_simd_padded_alloc_witness :
    MemRefBuilder.alignedAllocWithSimdPadding (fun _ => 4)
        ⟨⟨.float 32, none⟩, [some 10], true⟩ [] 1 16 =
      some (.padded 2 (.lit 48) ⟨⟨.int .signless 8, none⟩, [some 48], true⟩
        ⟨⟨.float 32, none⟩, [some 10], true⟩ [] 16) :=
  (C2_simd_padded_alloc (fun _ => 4) (.float 32) 32 [some 10] [] 1 16
    rfl (by norm_num) (by decide)).2.2.2 rfl

theorem dropLastAux {α : Type} (l : List α) (h : l ≠ []) :
    l.drop (l.length - 1) = [l.getLast h] := by
  induction l with
  | nil => exact absurd rfl h
  | cons a t ih =>
      cases t with
      | nil => rfl
      | cons b t' =>
          have h2 : (b :: t') ≠ [] := by simp
          show (a :: b :: t').drop ((b :: t').length + 1 - 1) = _
          rw [show (b :: t').length + 1 - 1 = (b :: t').length - 1 + 1 by simp]
          rw [List.drop_succ_cons]
          rw [ih h2]
          rw [List.getLast_cons h2]

/-- C9: for every rank-R identity-layout input and dimension list of length
R (R ≥ 1), `reshapeToFlat` with `dimsToFlatten == 1` returns the original
value unchanged — no reshape is emitted — while still returning a
flattened-size output that evaluates to the extent of the last dimension. -/
theorem C9_reshape_to_flat_noop (v : MemVal) (dims : List IndexExpr)
    (hrank : v.ty.shape.length = dims.length) (hr1 : 1 ≤ dims.length)
    (hid : v.ty.identity = true) :
    ∃ fsz, MemRefBuilder.reshapeToFlat v dims 1 = some (.noop v fsz) ∧
      ∀ env, fsz.eval env = (dims.getLast?.getD (.lit 1)).eval env := by
  have hne : dims ≠ [] := by intro h; subst h; simp at hr1
  refine ⟨(dims.drop (((v.ty.shape.length : Int) - 1).toNat)).foldl
    (fun acc d => acc.mkMul d) (.lit 1), ?_, ?_⟩
  · unfold MemRefBuilder.reshapeToFlat
    simp [hrank, hid]
    exact hne
  · intro env
    have hdrop : ((v.ty.shape.length : Int) - 1).toNat = dims.length - 1 := by
      rw [hrank]; omega
    rw [hdrop, dropLastAux dims hne]
    rw [List.getLast?_eq_getLast dims hne]
    simp [IndexExpr.eval_mkMul, IndexExpr.eval]

/-- Witness for C9_reshape_to_flat_noop: a static 3×5 float buffer. -/
theorem C9_reshape_to_flat_noop_witness :
    ∃ fsz, MemRefBuilder.reshapeToFlat
        ⟨0, ⟨⟨.float 32, none⟩, [some 3, some 5], true⟩⟩
        [.lit 3, .lit 5] 1 =
      some (.noop ⟨0, ⟨⟨.float 32, none⟩, [some 3, some 5], true⟩⟩ fsz) ∧
      ∀ env, fsz.eval env =
        (([IndexExpr.lit 3, IndexExpr.lit 5].getLast?).getD (.lit 1)).eval env :=
  C9_reshape_to_flat_noop ⟨0, ⟨⟨.float 32, none⟩, [some 3, some 5], true⟩⟩
    [.lit 3, .lit 5] rfl (by norm_num) rfl

/-- Witness for C7_inf_attrs_extrema: width 8, unsigned, at the `ui8` type. -/
theorem C7_inf_attrs_extrema_witness :
    ((8 = 32 ∨ 8 = 64) →
      MathBuilder.negativeInfAttr ⟨.float 8, none⟩ = some (.floatInf 8 true) ∧
      MathBuilder.positiveInfAttr ⟨.float 8, none⟩ = some (.floatInf 8 false)) ∧
    ((8 = 8 ∨ 8 = 16 ∨ 8 = 32 ∨ 8 = 64) →
      ∃ bn bp,
        MathBuilder.negativeInfAttr ⟨.int .unsigned 8, none⟩ =
          some (.intAttr .unsigned 8 bn) ∧
        MathBuilder.positiveInfAttr ⟨.int .unsigned 8, none⟩ =
          some (.intAttr .unsigned 8 bp) ∧
        (Signedness.unsigned = .unsigned → bn = 0 ∧ bp = 2 ^ 8 - 1) ∧
        (Signedness.unsigned ≠ .unsigned →
          toSigned 8 bn = -((2 : Int) ^ (8 - 1)) ∧
          toSigned 8 bp = (2 : Int) ^ (8 - 1) - 1)) ∧
    (MathBuilder.negativeInfAttr ⟨.int .unsigned 8, none⟩ = none ↔
      ¬((⟨.int .unsigned 8, none⟩ : MlirTy).lanes = none ∧
        ((⟨.int .unsigned 8, none⟩ : MlirTy).scalar = .float 32 ∨
         (⟨.int .unsigned 8, none⟩ : MlirTy).scalar = .float 64 ∨
         ∃ s ww, (⟨.int .unsigned 8, none⟩ : MlirTy).scalar = .int s ww ∧
           (ww = 8 ∨ ww = 16 ∨ ww = 32 ∨ ww = 64)))) ∧
    MathBuilder.negativeInf ⟨.int .unsigned 8, none⟩ =
      MathBuilder.negativeInfAttr ⟨.int .unsigned 8, none⟩ ∧
    MathBuilder.positiveInf ⟨.int .unsigned 8, none⟩ =
      MathBuilder.positiveInfAttr ⟨.int .unsigned 8, none⟩ :=
  C7_inf_attrs_extrema 8 .unsigned ⟨.int .unsigned 8, none⟩

end OnnxMlir
namespace OnnxMlir
namespace VectorBuilder

variable {β γ : Type}

theorem getD_map_range (n : Nat) (f : Nat → β) (i : Nat) (d : β) (h : i < n) :
    ((List.range n).map f).getD i d = f i := by
  rw [List.getD_eq_getElem _ d (by simpa using h)]
  simp

theorem getD_map_of_lt (l : List β) (g : β → γ) (i : Nat) (d : γ) (d₀ : β)
    (h : i < l.length) :
    (l.map g).getD i d = g (l.getD i d₀) := by
  rw [List.getD_eq_getElem _ d (by simpa using h), List.getD_eq_getElem _ d₀ h]
  simp

theorem getD_set (l : List β) (i j : Nat) (v : β) (d : β) :
    (l.set i v).getD j d = if i = j ∧ i < l.length then v else l.getD j d := by
  rw [List.getD_eq_getElem?_getD, List.getD_eq_getElem?_getD, List.getElem?_set]
  by_cases h1 : i = j
  · subst h1
    by_cases h2 : i < l.length
    · simp [h2]
    · simp [h2, List.getElem?_eq_none (le_of_not_lt h2)]
  · simp [h1]

theorem getD_append_left (l l' : List β) (i : Nat) (d : β) (h : i < l.length) :
    (l ++ l').getD i d = l.getD i d := by
  rw [List.getD_eq_getElem _ d (by simp; omega), List.getD_eq_getElem _ d h,
    List.getElem_append]
  simp [h]

theorem getD_append_right' (l l' : List β) (i : Nat) (d : β)
    (h : l.length ≤ i) :
    (l ++ l').getD i d = l'.getD (i - l.length) d := by
  rw [List.getD_eq_getElem?_getD, List.getD_eq_getElem?_getD,
    List.getElem?_append_right h]

theorem length_flatMap_chunks (P c : Nat) (f : Nat → List Nat)
    (hc : ∀ p, (f p).length = c) :
    ((List.range P).flatMap f).length = P * c := by
  induction P with
  | zero => simp
  | succ n ih =>
      rw [List.range_succ, List.flatMap_append]
      simp [ih, hc, Nat.succ_mul]

theorem getD_flatMap_chunks (c : Nat) (f : Nat → List Nat)
    (hc : ∀ p, (f p).length = c) :
    ∀ (P i : Nat), i < P * c →
    ((List.range P).flatMap f).getD i 0 = (f (i / c)).getD (i % c) 0 := by
  intro P
  induction P with
  | zero => intro i hi; simp at hi
  | succ n ih =>
      intro i hi
      rw [List.range_succ, List.flatMap_append]
      by_cases h : i < n * c
      · rw [getD_append_left _ _ _ _ (by rw [length_flatMap_chunks n c f hc]; exact h)]
        exact ih i h
      · have h1 : n * c ≤ i := le_of_not_lt h
        have hc0 : 0 < c := by
          rcases Nat.eq_zero_or_pos c with h0 | h0
          · subst h0; omega
          · exact h0
        rw [getD_append_right' _ _ _ _ (by rw [length_flatMap_chunks n c f hc]; exact h1)]
        rw [length_flatMap_chunks n c f hc]
        have hsm : (n + 1) * c = n * c + c := by ring
        have hdiv : i / c = n := Nat.div_eq_of_lt_le h1 (by omega)
        have h3 := Nat.div_add_mod i c
        rw [hdiv, Nat.mul_comm] at h3
        have hmod : i % c = i - n * c := by omega
        rw [hdiv, hmod]
        simp

end VectorBuilder
end OnnxMlir
namespace OnnxMlir
namespace VectorBuilder

variable {α : Type} [AddCommMonoid α]

theorem isPowerOf2_two_pow (k : Nat) : isPowerOf2 (2 ^ k) = true := by
  unfold isPowerOf2
  simp only [beq_iff_eq]
  apply Nat.eq_of_testBit_eq
  intro i
  simp only [Nat.testBit_and, Nat.testBit_two_pow, Nat.testBit_two_pow_sub_one,
    Nat.zero_testBit]
  by_cases h : k = i
  · subst h; simp
  · simp [h]

theorem mergeHighMask_length (VL s : Nat) (hdvd : 2 * s ∣ VL) :
    (mergeHighMask VL s).length = VL := by
  unfold mergeHighMask
  rw [length_flatMap_chunks _ (2 * s) _ (by intro p; simp; ring)]
  exact Nat.div_mul_cancel hdvd

theorem mergeLowMask_length (VL s : Nat) (hdvd : 2 * s ∣ VL) :
    (mergeLowMask VL s).length = VL := by
  unfold mergeLowMask
  rw [length_flatMap_chunks _ (2 * s) _ (by intro p; simp; ring)]
  exact Nat.div_mul_cancel hdvd

theorem mergeHighMask_getD (VL s : Nat) (hs : 0 < s) (hdvd : 2 * s ∣ VL)
    (i : Nat) (hi : i < VL) :
    (mergeHighMask VL s).getD i 0 =
      if i % (2 * s) < s then i / (2 * s) * s + i % (2 * s)
      else VL + i / (2 * s) * s + (i % (2 * s) - s) := by
  unfold mergeHighMask
  rw [getD_flatMap_chunks (2 * s) _ (by intro p; simp; ring) (VL / (2 * s)) i
    (by rw [Nat.div_mul_cancel hdvd]; exact hi)]
  by_cases h : i % (2 * s) < s
  · rw [if_pos h, getD_append_left _ _ _ _ (by simpa using h),
      getD_map_range _ _ _ _ h]
  · have hlt : i % (2 * s) - s < s := by
      have := Nat.mod_lt i (show 0 < 2 * s by omega)
      omega
    rw [if_neg h, getD_append_right' _ _ _ _ (by simpa using le_of_not_lt h)]
    simp only [List.length_map, List.length_range]
    rw [getD_map_range _ _ _ _ hlt]

theorem mergeLowMask_getD (VL s : Nat) (hs : 0 < s) (hdvd : 2 * s ∣ VL)
    (i : Nat) (hi : i < VL) :
    (mergeLowMask VL s).getD i 0 =
      if i % (2 * s) < s then VL / 2 + i / (2 * s) * s + i % (2 * s)
      else VL / 2 + VL + i / (2 * s) * s + (i % (2 * s) - s) := by
  unfold mergeLowMask
  rw [getD_flatMap_chunks (2 * s) _ (by intro p; simp; ring) (VL / (2 * s)) i
    (by rw [Nat.div_mul_cancel hdvd]; exact hi)]
  by_cases h : i % (2 * s) < s
  · rw [if_pos h, getD_append_left _ _ _ _ (by simpa using h),
      getD_map_range _ _ _ _ h]
  · have hlt : i % (2 * s) - s < s := by
      have := Nat.mod_lt i (show 0 < 2 * s by omega)
      omega
    rw [if_neg h, getD_append_right' _ _ _ _ (by simpa using le_of_not_lt h)]
    simp only [List.length_map, List.length_range]
    rw [getD_map_range _ _ _ _ hlt]

theorem mergeHighCore_length (a b : List α) (s : Nat) (hdvd : 2 * s ∣ a.length) :
    (mergeHighCore a b s).length = a.length := by
  unfold mergeHighCore shuffle
  simp [mergeHighMask_length _ _ hdvd]

theorem mergeLowCore_length (a b : List α) (s : Nat) (hdvd : 2 * s ∣ a.length) :
    (mergeLowCore a b s).length = a.length := by
  unfold mergeLowCore shuffle
  simp [mergeLowMask_length _ _ hdvd]

/-- The index bound for the first-half entries of the masks. -/
theorem mask_entry_bound (m s i : Nat) (hs : 0 < s) (hdvd : 2 * s ∣ m)
    (hi : i < m) :
    i / (2 * s) * s + s ≤ m / 2 := by
  obtain ⟨c, hc⟩ := hdvd
  have hdiv : i / (2 * s) < c := by
    have := Nat.div_lt_div_of_lt_of_dvd (by exact ⟨c, hc⟩) hi
    rwa [hc, Nat.mul_div_cancel_left c (by omega : 0 < 2 * s)] at this
  have h2 : m / 2 = s * c := by
    rw [hc]
    rw [show 2 * s * c = 2 * (s * c) by ring]
    exact Nat.mul_div_cancel_left _ (by omega)
  have h3 : (i / (2 * s) + 1) * s ≤ c * s := Nat.mul_le_mul_right s hdiv
  calc i / (2 * s) * s + s = (i / (2 * s) + 1) * s := by ring
    _ ≤ c * s := h3
    _ = m / 2 := by rw [h2]; ring

theorem mergeHighCore_getD (a b : List α) (m s : Nat) (hs : 0 < s)
    (ha : a.length = m) (hb : b.length = m) (hdvd : 2 * s ∣ m)
    (i : Nat) (hi : i < m) :
    (mergeHighCore a b s).getD i 0 =
      if i % (2 * s) < s then a.getD (i / (2 * s) * s + i % (2 * s)) 0
      else b.getD (i / (2 * s) * s + (i % (2 * s) - s)) 0 := by
  have hbound := mask_entry_bound m s i hs hdvd hi
  have hm2 : m / 2 ≤ m := Nat.div_le_self m 2
  unfold mergeHighCore shuffle
  rw [ha]
  rw [getD_map_of_lt _ _ i 0 0 (by rw [mergeHighMask_length m s hdvd]; exact hi)]
  rw [mergeHighMask_getD m s hs hdvd i hi]
  by_cases h : i % (2 * s) < s
  · rw [if_pos h, if_pos h]
    exact getD_append_left a b _ 0 (by rw [ha]; omega)
  · rw [if_neg h, if_neg h]
    have hmod : i % (2 * s) - s < s := by
      have := Nat.mod_lt i (show 0 < 2 * s by omega)
      omega
    rw [getD_append_right' a b _ 0 (by rw [ha]; omega)]
    congr 1
    rw [ha]
    omega

theorem mergeLowCore_getD (a b : List α) (m s : Nat) (hs : 0 < s)
    (ha : a.length = m) (hb : b.length = m) (hdvd : 2 * s ∣ m)
    (i : Nat) (hi : i < m) :
    (mergeLowCore a b s).getD i 0 =
      if i % (2 * s) < s then a.getD (m / 2 + i / (2 * s) * s + i % (2 * s)) 0
      else b.getD (m / 2 + i / (2 * s) * s + (i % (2 * s) - s)) 0 := by
  have hbound := mask_entry_bound m s i hs hdvd hi
  have hm2 : m / 2 + m / 2 ≤ m := by omega
  unfold mergeLowCore shuffle
  rw [ha]
  rw [getD_map_of_lt _ _ i 0 0 (by rw [mergeLowMask_length m s hdvd]; exact hi)]
  rw [mergeLowMask_getD m s hs hdvd i hi]
  by_cases h : i % (2 * s) < s
  · rw [if_pos h, if_pos h]
    exact getD_append_left a b _ 0 (by rw [ha]; omega)
  · rw [if_neg h, if_neg h]
    have hmod : i % (2 * s) - s < s := by
      have := Nat.mod_lt i (show 0 < 2 * s by omega)
      omega
    rw [getD_append_right' a b _ 0 (by rw [ha]; omega)]
    congr 1
    rw [ha]
    omega

theorem vadd_length (a b : List α) : (vadd a b).length = min a.length b.length := by
  simp [vadd]

theorem vadd_getD (a b : List α) (i : Nat) (hia : i < a.length)
    (hib : i < b.length) :
    (vadd a b).getD i 0 = a.getD i 0 + b.getD i 0 := by
  unfold vadd
  rw [List.getD_eq_getElem _ _ (by simp; omega), List.getD_eq_getElem _ _ hia,
    List.getD_eq_getElem _ _ hib]
  simp

end VectorBuilder
end OnnxMlir
namespace OnnxMlir
namespace VectorBuilder

variable {α : Type} [AddCommMonoid α] {β : Type}

theorem getD_mem (l : List β) (i : Nat) (d : β) (h : i < l.length) :
    l.getD i d ∈ l := by
  rw [List.getD_eq_getElem _ _ h]
  exact List.getElem_mem h

theorem pairCombine_length (s : Nat) :
    ∀ vs : List (List α), (pairCombine s vs).length = vs.length / 2
  | [] => by simp [pairCombine]
  | [a] => by simp [pairCombine]
  | a :: b :: rest => by
      show (vadd (mergeHighCore a b s) (mergeLowCore a b s) ::
        pairCombine s rest).length = (rest.length + 1 + 1) / 2
      simp only [List.length_cons, pairCombine_length s rest]
      omega

theorem pairCombine_getD (s : Nat) :
    ∀ (vs : List (List α)) (p : Nat), 2 * p + 1 < vs.length →
    (pairCombine s vs).getD p [] =
      vadd (mergeHighCore (vs.getD (2 * p) []) (vs.getD (2 * p + 1) []) s)
           (mergeLowCore (vs.getD (2 * p) []) (vs.getD (2 * p + 1) []) s)
  | [], p, h => by simp at h
  | [a], p, h => by simp at h
  | a :: b :: rest, 0, h => by rfl
  | a :: b :: rest, p + 1, h => by
      show (pairCombine s rest).getD p [] = _
      rw [pairCombine_getD s rest p (by simp at h ⊢; omega)]
      have e1 : 2 * (p + 1) = 2 * p + 1 + 1 := by ring
      rw [e1]
      rfl

theorem pairCombine_mem_length (s m : Nat) (hdvd : 2 * s ∣ m) :
    ∀ vs : List (List α), (∀ v ∈ vs, v.length = m) →
      ∀ w ∈ pairCombine s vs, w.length = m
  | [], _, w, hw => by simp [pairCombine] at hw
  | [a], _, w, hw => by simp [pairCombine] at hw
  | a :: b :: rest, hv, w, hw => by
      rcases List.mem_cons.mp hw with h | h
      · subst h
        have ha : a.length = m := hv a (by simp)
        rw [vadd_length, mergeHighCore_length _ _ _ (by rw [ha]; exact hdvd),
          mergeLowCore_length _ _ _ (by rw [ha]; exact hdvd), ha]
        simp
      · exact pairCombine_mem_length s m hdvd rest
          (fun v hv' => hv v (by simp [hv'])) w h

theorem sum_range_double (f : Nat → α) (n : Nat) :
    ∑ j ∈ Finset.range (2 * n), f j =
      ∑ j ∈ Finset.range n, f (2 * j) +
        ∑ j ∈ Finset.range n, f (2 * j + 1) := by
  induction n with
  | zero => simp
  | succ n ih =>
      have h1 : 2 * (n + 1) = (2 * n + 1) + 1 := by ring
      rw [h1, Finset.sum_range_succ, Finset.sum_range_succ, ih,
        Finset.sum_range_succ, Finset.sum_range_succ]
      abel

/-- One `pairCombine` step preserves the butterfly invariant: if active
vector `p`, lane `q*2^t + u`, holds the partial sum of the lanes congruent
to `q` modulo `2^(k-t)` of original vector `p*2^t + u`, the same shape holds
one level up. -/
theorem pairCombine_inv (k t : Nat) (ht : t < k) (g : Nat → Nat → α)
    (cur : List (List α))
    (hculen : cur.length = 2 ^ (k - t))
    (hvlen : ∀ v ∈ cur, v.length = 2 ^ k)
    (hinv : ∀ p < 2 ^ (k - t), ∀ q < 2 ^ (k - t), ∀ u < 2 ^ t,
      (cur.getD p []).getD (q * 2 ^ t + u) 0 =
        ∑ j ∈ Finset.range (2 ^ t), g (p * 2 ^ t + u) (q + j * 2 ^ (k - t))) :
    ∀ p < 2 ^ (k - (t + 1)), ∀ q < 2 ^ (k - (t + 1)), ∀ u < 2 ^ (t + 1),
      ((pairCombine (2 ^ t) cur).getD p []).getD (q * 2 ^ (t + 1) + u) 0 =
        ∑ j ∈ Finset.range (2 ^ (t + 1)),
          g (p * 2 ^ (t + 1) + u) (q + j * 2 ^ (k - (t + 1))) := by
  intro p hp q hq u hu
  have he1 : k - t = (k - (t + 1)) + 1 := by omega
  have hsplit : (2 : Nat) ^ (k - t) = 2 * 2 ^ (k - (t + 1)) := by
    rw [he1, pow_succ]; ring
  have hsplit2 : (2 : Nat) ^ (t + 1) = 2 * 2 ^ t := by rw [pow_succ]; ring
  have hppos : (0 : Nat) < 2 ^ t := Nat.pos_pow_of_pos t (by omega)
  have hBpos : (0 : Nat) < 2 ^ (t + 1) := Nat.pos_pow_of_pos _ (by omega)
  have hdvd : 2 * 2 ^ t ∣ 2 ^ k := by
    rw [← hsplit2]; exact pow_dvd_pow 2 (by omega)
  have h2p : 2 * p + 1 < cur.length := by rw [hculen, hsplit]; omega
  have h2p' : 2 * p < 2 ^ (k - t) := by rw [hsplit]; omega
  have h2p1 : 2 * p + 1 < 2 ^ (k - t) := by rw [hsplit]; omega
  have hq' : q < 2 ^ (k - t) := by rw [hsplit]; omega
  have hq2 : q + 2 ^ (k - (t + 1)) < 2 ^ (k - t) := by rw [hsplit]; omega
  have hi : q * 2 ^ (t + 1) + u < 2 ^ k := by
    have hk : (2 : Nat) ^ k = 2 ^ (k - (t + 1)) * 2 ^ (t + 1) := by
      rw [← pow_add]; congr 1; omega
    have hle : (q + 1) * 2 ^ (t + 1) ≤ 2 ^ (k - (t + 1)) * 2 ^ (t + 1) :=
      Nat.mul_le_mul_right _ (by omega)
    calc q * 2 ^ (t + 1) + u < q * 2 ^ (t + 1) + 2 ^ (t + 1) := by omega
      _ = (q + 1) * 2 ^ (t + 1) := by ring
      _ ≤ 2 ^ (k - (t + 1)) * 2 ^ (t + 1) := hle
      _ = 2 ^ k := hk.symm
  have ha' : cur.getD (2 * p) [] ∈ cur := getD_mem cur (2 * p) [] (by omega)
  have hb' : cur.getD (2 * p + 1) [] ∈ cur := getD_mem cur (2 * p + 1) [] h2p
  have ha : (cur.getD (2 * p) []).length = 2 ^ k := hvlen _ ha'
  have hb : (cur.getD (2 * p + 1) []).length = 2 ^ k := hvlen _ hb'
  rw [pairCombine_getD (2 ^ t) cur p h2p]
  rw [vadd_getD _ _ _
    (by rw [mergeHighCore_length _ _ _ (by rw [ha]; exact hdvd), ha]; exact hi)
    (by rw [mergeLowCore_length _ _ _ (by rw [ha]; exact hdvd), ha]; exact hi)]
  rw [mergeHighCore_getD _ _ (2 ^ k) (2 ^ t) hppos ha hb hdvd _ hi]
  rw [mergeLowCore_getD _ _ (2 ^ k) (2 ^ t) hppos ha hb hdvd _ hi]
  have hBmod : (q * 2 ^ (t + 1) + u) % (2 * 2 ^ t) = u := by
    rw [← hsplit2,
      show q * 2 ^ (t + 1) + u = 2 ^ (t + 1) * q + u by ring,
      Nat.mul_add_mod]
    exact Nat.mod_eq_of_lt hu
  have hBdiv : (q * 2 ^ (t + 1) + u) / (2 * 2 ^ t) = q := by
    rw [← hsplit2]
    rw [show q * 2 ^ (t + 1) + u = 2 ^ (t + 1) * q + u by ring]
    rw [Nat.mul_add_div hBpos, Nat.div_eq_of_lt hu, Nat.add_zero]
  rw [hBmod, hBdiv]
  have hm2 : 2 ^ k / 2 = 2 ^ (k - 1) := by
    rw [show k = (k - 1) + 1 by omega, pow_succ]
    simp
  have hk1 : (2 : Nat) ^ (k - 1) = 2 ^ (k - (t + 1)) * 2 ^ t := by
    rw [← pow_add]; congr 1; omega
  by_cases hu1 : u < 2 ^ t
  · rw [if_pos hu1, if_pos hu1]
    have hidx2 : 2 ^ k / 2 + q * 2 ^ t + u =
        (q + 2 ^ (k - (t + 1))) * 2 ^ t + u := by
      rw [hm2, hk1]; ring
    rw [hidx2]
    rw [hinv (2 * p) h2p' q hq' u hu1,
      hinv (2 * p) h2p' (q + 2 ^ (k - (t + 1))) hq2 u hu1]
    have hvx : 2 * p * 2 ^ t + u = p * 2 ^ (t + 1) + u := by
      rw [hsplit2]; ring
    rw [hvx]
    rw [show (2 : Nat) ^ (t + 1) = 2 * 2 ^ t from hsplit2]
    rw [sum_range_double (fun j =>
      g (p * (2 * 2 ^ t) + u) (q + j * 2 ^ (k - (t + 1)))) (2 ^ t)]
    congr 1
    · apply Finset.sum_congr rfl
      intro j hj
      congr 1
      rw [hsplit]; ring
    · apply Finset.sum_congr rfl
      intro j hj
      congr 1
      rw [hsplit]; ring
  · rw [if_neg hu1, if_neg hu1]
    have hus : u - 2 ^ t < 2 ^ t := by
      rw [hsplit2] at hu; omega
    have hidx2 : 2 ^ k / 2 + q * 2 ^ t + (u - 2 ^ t) =
        (q + 2 ^ (k - (t + 1))) * 2 ^ t + (u - 2 ^ t) := by
      rw [hm2, hk1]; ring
    rw [hidx2]
    rw [hinv (2 * p + 1) h2p1 q hq' (u - 2 ^ t) hus,
      hinv (2 * p + 1) h2p1 (q + 2 ^ (k - (t + 1))) hq2 (u - 2 ^ t) hus]
    have hvx : (2 * p + 1) * 2 ^ t + (u - 2 ^ t) = p * 2 ^ (t + 1) + u := by
      have h1 : (2 * p + 1) * 2 ^ t = 2 * (p * 2 ^ t) + 2 ^ t := by ring
      have h2 : p * 2 ^ (t + 1) = 2 * (p * 2 ^ t) := by rw [hsplit2]; ring
      omega
    rw [hvx]
    rw [show (2 : Nat) ^ (t + 1) = 2 * 2 ^ t from hsplit2]
    rw [sum_range_double (fun j =>
      g (p * (2 * 2 ^ t) + u) (q + j * 2 ^ (k - (t + 1)))) (2 ^ t)]
    congr 1
    · apply Finset.sum_congr rfl
      intro j hj
      congr 1
      rw [hsplit]; ring
    · apply Finset.sum_congr rfl
      intro j hj
      congr 1
      rw [hsplit]; ring

end VectorBuilder
end OnnxMlir
namespace OnnxMlir
namespace VectorBuilder

variable {α : Type} [AddCommMonoid α]

theorem collapseAux_zero (mVL step : Nat) (vs : List (List α)) :
    collapseAux mVL 0 step vs = vs := rfl

theorem collapseAux_succ (mVL c step : Nat) (vs : List (List α)) :
    collapseAux mVL (c + 1) step vs =
      if step < mVL then collapseAux mVL c (2 * step) (pairCombine step vs)
      else vs := rfl

/-- Running the reference network to completion from level `t` (with enough
fuel) turns the invariant into the horizontal sums. -/
theorem collapseAux_spec (k : Nat) (g : Nat → Nat → α) :
    ∀ (c t : Nat) (cur : List (List α)), t ≤ k → k - t ≤ c →
    cur.length = 2 ^ (k - t) →
    (∀ v ∈ cur, v.length = 2 ^ k) →
    (∀ p < 2 ^ (k - t), ∀ q < 2 ^ (k - t), ∀ u < 2 ^ t,
      (cur.getD p []).getD (q * 2 ^ t + u) 0 =
        ∑ j ∈ Finset.range (2 ^ t), g (p * 2 ^ t + u) (q + j * 2 ^ (k - t))) →
    ∀ u < 2 ^ k,
      ((collapseAux (2 ^ k) c (2 ^ t) cur).getD 0 []).getD u 0 =
        ∑ j ∈ Finset.range (2 ^ k), g u j := by
  intro c
  induction c with
  | zero =>
      intro t cur ht hc hculen hvlen hinv u hu
      have htk : t = k := by omega
      subst htk
      rw [collapseAux_zero]
      have h1 := hinv 0 (by positivity) 0 (by positivity) u hu
      simpa using h1
  | succ c ih =>
      intro t cur ht hc hculen hvlen hinv u hu
      by_cases htk : t < k
      · have hguard : (2 : Nat) ^ t < 2 ^ k :=
          Nat.pow_lt_pow_right (by omega) htk
        rw [collapseAux_succ, if_pos hguard,
          show (2 : Nat) * 2 ^ t = 2 ^ (t + 1) by rw [pow_succ]; ring]
        have hdvd : 2 * 2 ^ t ∣ 2 ^ k := by
          rw [show (2 : Nat) * 2 ^ t = 2 ^ (t + 1) by rw [pow_succ]; ring]
          exact pow_dvd_pow 2 (by omega)
        have hlen : (pairCombine (2 ^ t) cur).length = 2 ^ (k - (t + 1)) := by
          rw [pairCombine_length, hculen,
            show k - t = (k - (t + 1)) + 1 by omega, pow_succ]
          simp
        exact ih (t + 1) (pairCombine (2 ^ t) cur) (by omega) (by omega) hlen
          (pairCombine_mem_length (2 ^ t) (2 ^ k) hdvd cur hvlen)
          (pairCombine_inv k t htk g cur hculen hvlen hinv) u hu
      · have htk' : t = k := by omega
        subst htk'
        rw [collapseAux_succ, if_neg (lt_irrefl _)]
        have h1 := hinv 0 (by positivity) 0 (by positivity) u hu
        simpa using h1

end VectorBuilder
end OnnxMlir
namespace OnnxMlir
namespace VectorBuilder

variable {α : Type} [AddCommMonoid α]

theorem mergeHigh_eq (x y : List α) (s m : Nat) (hx : x.length = m)
    (hy : y.length = m) (hpow : isPowerOf2 m = true) :
    mergeHigh x y s = some (mergeHighCore x y s) := by
  unfold mergeHigh getLengthOf1DVector
  rw [hx, hy]
  simp [hpow]

theorem mergeLow_eq (x y : List α) (s m : Nat) (hx : x.length = m)
    (hy : y.length = m) (hpow : isPowerOf2 m = true) :
    mergeLow x y s = some (mergeLowCore x y s) := by
  unfold mergeLow getLengthOf1DVector
  rw [hx, hy]
  simp [hpow]

theorem innerPairLoop_succ (s n r : Nat) (tmp : List (List α)) :
    innerPairLoop s (n + 1) r tmp =
      (innerPairLoop s n r tmp).bind (fun t =>
        match mergeHigh (t.getD (r + 2 * n) []) (t.getD (r + 2 * n + 1) []) s,
              mergeLow (t.getD (r + 2 * n) []) (t.getD (r + 2 * n + 1) []) s with
        | some highVal, some lowVal => some (t.set (r + n) (vadd highVal lowVal))
        | _, _ => none) := by
  unfold innerPairLoop
  rw [List.range_succ, List.foldl_append]
  rfl

/-- The inner pair loop: succeeds under the in-range well-formedness
conditions, writes only `[r, r+n)`, and entry `r+p` becomes the
high/low-merge combination of the *original* entries `r+2p`, `r+2p+1`
(which it reads before overwriting them, since `2p ≥ p`). -/
theorem innerPairLoop_spec (m s r : Nat) (hpow : isPowerOf2 m = true)
    (hdvd : 2 * s ∣ m) :
    ∀ (n : Nat) (tmp : List (List α)),
    (∀ v ∈ tmp, v.length = m) → r + 2 * n ≤ tmp.length →
    ∃ tmp', innerPairLoop s n r tmp = some tmp' ∧
      tmp'.length = tmp.length ∧
      (∀ v ∈ tmp', v.length = m) ∧
      (∀ j, (j < r ∨ r + n ≤ j) → tmp'.getD j [] = tmp.getD j []) ∧
      (∀ p, p < n → tmp'.getD (r + p) [] =
        vadd (mergeHighCore (tmp.getD (r + 2 * p) []) (tmp.getD (r + 2 * p + 1) []) s)
             (mergeLowCore (tmp.getD (r + 2 * p) []) (tmp.getD (r + 2 * p + 1) []) s)) := by
  intro n
  induction n with
  | zero =>
      intro tmp hm hrange
      exact ⟨tmp, rfl, rfl, hm, fun j _ => rfl, fun p hp => by omega⟩
  | succ n ih =>
      intro tmp hm hrange
      obtain ⟨tmp₁, heq, hlen, hmem, huntouched, hentries⟩ :=
        ih tmp hm (by omega)
      have hr2n : r + 2 * n < tmp.length := by omega
      have hr2n1 : r + 2 * n + 1 < tmp.length := by omega
      have hx : (tmp.getD (r + 2 * n) []).length = m :=
        hm _ (getD_mem tmp (r + 2 * n) [] hr2n)
      have hy : (tmp.getD (r + 2 * n + 1) []).length = m :=
        hm _ (getD_mem tmp (r + 2 * n + 1) [] hr2n1)
      have hreada : tmp₁.getD (r + 2 * n) [] = tmp.getD (r + 2 * n) [] :=
        huntouched _ (by omega)
      have hreadb : tmp₁.getD (r + 2 * n + 1) [] = tmp.getD (r + 2 * n + 1) [] :=
        huntouched _ (by omega)
      have hvlen : (vadd (mergeHighCore (tmp.getD (r + 2 * n) [])
          (tmp.getD (r + 2 * n + 1) []) s)
          (mergeLowCore (tmp.getD (r + 2 * n) [])
            (tmp.getD (r + 2 * n + 1) []) s)).length = m := by
        rw [vadd_length, mergeHighCore_length _ _ _ (by rw [hx]; exact hdvd),
          mergeLowCore_length _ _ _ (by rw [hx]; exact hdvd), hx]
        simp
      refine ⟨tmp₁.set (r + n) (vadd
          (mergeHighCore (tmp.getD (r + 2 * n) []) (tmp.getD (r + 2 * n + 1) []) s)
          (mergeLowCore (tmp.getD (r + 2 * n) []) (tmp.getD (r + 2 * n + 1) []) s)),
        ?_, ?_, ?_, ?_, ?_⟩
      · rw [innerPairLoop_succ, heq]
        show (match mergeHigh (tmp₁.getD (r + 2 * n) [])
                (tmp₁.getD (r + 2 * n + 1) []) s,
              mergeLow (tmp₁.getD (r + 2 * n) [])
                (tmp₁.getD (r + 2 * n + 1) []) s with
          | some highVal, some lowVal => some (tmp₁.set (r + n) (vadd highVal lowVal))
          | _, _ => none) = _
        rw [hreada, hreadb,
          mergeHigh_eq _ _ s m hx hy hpow, mergeLow_eq _ _ s m hx hy hpow]
      · rw [List.length_set, hlen]
      · intro v hv
        rcases List.mem_or_eq_of_mem_set hv with h | h
        · exact hmem v h
        · rw [h]; exact hvlen
      · intro j hj
        rw [getD_set]
        rw [if_neg (by omega)]
        exact huntouched j (by omega)
      · intro p hp
        rcases Nat.lt_or_ge p n with hpn | hpn
        · rw [getD_set, if_neg (by omega)]
          exact hentries p hpn
        · have hpn' : p = n := by omega
          subst hpn'
          rw [getD_set, if_pos ⟨rfl, by omega⟩]

end VectorBuilder
end OnnxMlir
namespace OnnxMlir
namespace VectorBuilder

variable {α : Type} {β : Type}

theorem groupSlice_length (tmp : List (List α)) (r n : Nat)
    (h : r + n ≤ tmp.length) : (groupSlice tmp r n).length = n := by
  simp [groupSlice]
  omega

theorem groupSlice_getD (tmp : List (List α)) (r n p : Nat) (hp : p < n)
    (h : r + n ≤ tmp.length) :
    (groupSlice tmp r n).getD p [] = tmp.getD (r + p) [] := by
  unfold groupSlice
  rw [List.getD_eq_getElem _ _ (by simp; omega),
    List.getD_eq_getElem _ _ (by omega : r + p < tmp.length)]
  rw [List.getElem_take, List.getElem_drop]

theorem groupSlice_mem (tmp : List (List α)) (r n : Nat) :
    ∀ v ∈ groupSlice tmp r n, v ∈ tmp := by
  intro v hv
  exact List.mem_of_mem_drop (List.mem_of_mem_take hv)

theorem list_ext_getD (l l' : List β) (d : β) (hlen : l.length = l'.length)
    (h : ∀ i, i < l.length → l.getD i d = l'.getD i d) : l = l' := by
  apply List.ext_getElem hlen
  intro n h1 h2
  have h3 := h n h1
  rwa [List.getD_eq_getElem _ _ h1, List.getD_eq_getElem _ _ h2] at h3

variable [AddCommMonoid α]

theorem stepLoop_zero (mVL r step np : Nat) (tmp : List (List α)) :
    stepLoop mVL r 0 step np tmp = some tmp := rfl

theorem stepLoop_succ (mVL r c step np : Nat) (tmp : List (List α)) :
    stepLoop mVL r (c + 1) step np tmp =
      if step < mVL then
        match innerPairLoop step np r tmp with
        | none => none
        | some tmp' => stepLoop mVL r c (step * 2) (np / 2) tmp'
      else some tmp := rfl

/-- The imperative step loop computes, in `tmp[r]`, exactly the reference
network applied to the group slice, touching nothing outside the group. -/
theorem stepLoop_sim (k r : Nat) :
    ∀ (c t : Nat) (tmp : List (List α)), t ≤ k → k - t ≤ c →
    (∀ v ∈ tmp, v.length = 2 ^ k) → r + 2 ^ k ≤ tmp.length →
    ∃ tmp', stepLoop (2 ^ k) r c (2 ^ t) (2 ^ k / 2 ^ (t + 1)) tmp = some tmp' ∧
      tmp'.length = tmp.length ∧
      (∀ v ∈ tmp', v.length = 2 ^ k) ∧
      (∀ j, (j < r ∨ r + 2 ^ k ≤ j) → tmp'.getD j [] = tmp.getD j []) ∧
      tmp'.getD r [] =
        (collapseAux (2 ^ k) c (2 ^ t) (groupSlice tmp r (2 ^ (k - t)))).getD 0 [] := by
  intro c
  induction c with
  | zero =>
      intro t tmp ht hc hm hr
      have hpos : (0 : Nat) < 2 ^ k := Nat.pos_pow_of_pos _ (by omega)
      have htk : t = k := by omega
      subst htk
      refine ⟨tmp, stepLoop_zero _ _ _ _ _, rfl, hm, fun j _ => rfl, ?_⟩
      rw [collapseAux_zero, Nat.sub_self, pow_zero,
        groupSlice_getD tmp r 1 0 (by omega) (by omega), Nat.add_zero]
  | succ c ih =>
      intro t tmp ht hc hm hr
      have hpos : (0 : Nat) < 2 ^ k := Nat.pos_pow_of_pos _ (by omega)
      by_cases htk : t < k
      · have hguard : (2 : Nat) ^ t < 2 ^ k :=
          Nat.pow_lt_pow_right (by omega) htk
        have hnp : 2 ^ k / 2 ^ (t + 1) = 2 ^ (k - (t + 1)) :=
          Nat.pow_div (by omega) (by omega)
        have hsplit : (2 : Nat) ^ (k - t) = 2 * 2 ^ (k - (t + 1)) := by
          rw [show k - t = (k - (t + 1)) + 1 by omega, pow_succ]; ring
        have hle : (2 : Nat) ^ (k - t) ≤ 2 ^ k :=
          Nat.pow_le_pow_right (by omega) (by omega)
        have hdvd : 2 * 2 ^ t ∣ 2 ^ k := by
          rw [show (2 : Nat) * 2 ^ t = 2 ^ (t + 1) by rw [pow_succ]; ring]
          exact pow_dvd_pow 2 (by omega)
        obtain ⟨tmp₁, heq1, hlen1, hmem1, huntouched1, hentries1⟩ :=
          innerPairLoop_spec (2 ^ k) (2 ^ t) r (isPowerOf2_two_pow k) hdvd
            (2 ^ (k - (t + 1))) tmp hm (by rw [← hsplit]; omega)
        have hslice : groupSlice tmp₁ r (2 ^ (k - (t + 1))) =
            pairCombine (2 ^ t) (groupSlice tmp r (2 ^ (k - t))) := by
          apply list_ext_getD _ _ []
          · rw [groupSlice_length _ _ _ (by omega),
              pairCombine_length, groupSlice_length _ _ _ (by omega), hsplit]
            omega
          · intro p hp
            rw [groupSlice_length _ _ _ (by omega)] at hp
            rw [groupSlice_getD _ _ _ _ hp (by omega)]
            rw [pairCombine_getD _ _ _ (by
              rw [groupSlice_length _ _ _ (by omega), hsplit]; omega)]
            rw [hentries1 p hp]
            rw [groupSlice_getD _ _ _ _ (by rw [hsplit]; omega) (by omega),
              groupSlice_getD _ _ _ _ (by rw [hsplit]; omega) (by omega)]
            rw [Nat.add_assoc]
        obtain ⟨tmp', heq2, hlen2, hmem2, huntouched2, hfinal⟩ :=
          ih (t + 1) tmp₁ (by omega) (by omega) hmem1 (by rw [hlen1]; exact hr)
        refine ⟨tmp', ?_, ?_, hmem2, ?_, ?_⟩
        · rw [stepLoop_succ, if_pos hguard, hnp, heq1]
          show stepLoop (2 ^ k) r c (2 ^ t * 2) (2 ^ (k - (t + 1)) / 2) tmp₁ = _
          rw [show (2 : Nat) ^ t * 2 = 2 ^ (t + 1) from (pow_succ 2 t).symm]
          rw [show 2 ^ (k - (t + 1)) / 2 = 2 ^ k / 2 ^ (t + 1 + 1) by
            rw [← hnp, Nat.div_div_eq_div_mul, ← pow_succ]]
          exact heq2
        · rw [hlen2, hlen1]
        · intro j hj
          have hle2 : (2 : Nat) ^ (k - (t + 1)) ≤ 2 ^ k :=
            Nat.pow_le_pow_right (by omega) (by omega)
          rw [huntouched2 j hj, huntouched1 j (by omega)]
        · rw [hfinal, collapseAux_succ, if_pos hguard, hslice,
            show (2 : Nat) ^ (t + 1) = 2 * 2 ^ t from by rw [pow_succ]; ring]
      · have htk' : t = k := by omega
        subst htk'
        refine ⟨tmp, ?_, rfl, hm, fun j _ => rfl, ?_⟩
        · rw [stepLoop_succ, if_neg (lt_irrefl _)]
        · rw [collapseAux_succ, if_neg (lt_irrefl _), Nat.sub_self, pow_zero,
            groupSlice_getD tmp r 1 0 (by omega) (by omega), Nat.add_zero]

end VectorBuilder
end OnnxMlir
namespace OnnxMlir
namespace VectorBuilder

variable {α : Type} [AddCommMonoid α]

theorem groupLoop_zero (mVL r : Nat) (tmp out : List (List α)) :
    groupLoop mVL 0 r tmp out = some out := rfl

theorem groupLoop_succ (mVL g r : Nat) (tmp out : List (List α)) :
    groupLoop mVL (g + 1) r tmp out =
      match stepLoop mVL r mVL 1 (mVL / 2) tmp with
      | none => none
      | some tmp' => groupLoop mVL g (r + mVL) tmp' (out ++ [tmp'.getD r []]) := rfl

/-- The outer group loop appends, for each group, exactly the reference
butterfly value of that group's slice of the inputs at loop entry. -/
theorem groupLoop_sim (k : Nat) :
    ∀ (g r : Nat) (tmp out : List (List α)),
    (∀ v ∈ tmp, v.length = 2 ^ k) → r + g * 2 ^ k ≤ tmp.length →
    ∃ out', groupLoop (2 ^ k) g r tmp out = some out' ∧
      out'.length = out.length + g ∧
      (∀ i, i < out.length → out'.getD i [] = out.getD i []) ∧
      (∀ i, i < g → out'.getD (out.length + i) [] =
        butterflyGroupRef (2 ^ k) (groupSlice tmp (r + i * 2 ^ k) (2 ^ k))) := by
  intro g
  induction g with
  | zero =>
      intro r tmp out _ _
      exact ⟨out, groupLoop_zero _ _ _ _, by omega, fun i _ => rfl,
        fun i hi => absurd hi (by omega)⟩
  | succ g ih =>
      intro r tmp out hm hr
      have hpow : (0 : Nat) < 2 ^ k := Nat.pos_pow_of_pos _ (by omega)
      have hgs : (g + 1) * 2 ^ k = g * 2 ^ k + 2 ^ k := by ring
      have hrb : r + 2 ^ k ≤ tmp.length := by omega
      obtain ⟨tmp', hstep, hlen', hm', hout, hval⟩ :=
        stepLoop_sim k r (2 ^ k) 0 tmp (Nat.zero_le k)
          (le_of_lt (Nat.lt_two_pow k)) hm hrb
      simp only [pow_zero, zero_add, pow_one] at hstep
      simp only [pow_zero, Nat.sub_zero] at hval
      obtain ⟨out', hloop, hlen, hpre, hnew⟩ :=
        ih (r + 2 ^ k) tmp' (out ++ [tmp'.getD r []]) hm' (by omega)
      have hL : (out ++ [tmp'.getD r []]).length = out.length + 1 := by simp
      refine ⟨out', ?_, ?_, ?_, ?_⟩
      · rw [groupLoop_succ, hstep]
        exact hloop
      · rw [hlen, hL]
        omega
      · intro i hi
        rw [hpre i (by rw [hL]; omega), getD_append_left _ _ _ _ hi]
      · intro i hi
        match i with
        | 0 =>
            have h0 := hpre out.length (by rw [hL]; omega)
            rw [Nat.add_zero, Nat.zero_mul, Nat.add_zero, h0,
              getD_append_right' _ _ _ _ (le_refl _), Nat.sub_self]
            simpa [butterflyGroupRef] using hval
        | j + 1 =>
            have hj := hnew j (by omega)
            rw [hL] at hj
            have hidx : out.length + (j + 1) = out.length + 1 + j := by omega
            have haddr : r + 2 ^ k + j * 2 ^ k = r + (j + 1) * 2 ^ k := by ring
            rw [haddr] at hj
            rw [hidx, hj]
            have hbound : r + (j + 1) * 2 ^ k + 2 ^ k ≤ tmp.length := by
              have h2 : (j + 2) * 2 ^ k ≤ (g + 1) * 2 ^ k :=
                Nat.mul_le_mul_right _ (by omega)
              have h3 : (j + 2) * 2 ^ k = (j + 1) * 2 ^ k + 2 ^ k := by ring
              omega
            have h4 : 2 ^ k ≤ (j + 1) * 2 ^ k := by
              have h5 : 1 * 2 ^ k ≤ (j + 1) * 2 ^ k :=
                Nat.mul_le_mul_right _ (by omega)
              omega
            have hslices : groupSlice tmp' (r + (j + 1) * 2 ^ k) (2 ^ k) =
                groupSlice tmp (r + (j + 1) * 2 ^ k) (2 ^ k) := by
              apply list_ext_getD _ _ ([] : List α)
              · rw [groupSlice_length _ _ _ (by omega),
                  groupSlice_length _ _ _ hbound]
              · intro p hp
                rw [groupSlice_length _ _ _ (by omega)] at hp
                rw [groupSlice_getD _ _ _ _ hp (by omega),
                  groupSlice_getD _ _ _ _ hp hbound]
                apply hout
                right
                omega
            rw [hslices]

/-- Lane-level meaning of the reference network: result lane `u` is the
horizontal sum of the lanes of the group's `u`-th input vector. -/
theorem butterflyGroupRef_lanes (k : Nat) (group : List (List α))
    (hlen : group.length = 2 ^ k) (hall : ∀ v ∈ group, v.length = 2 ^ k) :
    ∀ u, u < 2 ^ k → (butterflyGroupRef (2 ^ k) group).getD u 0 =
      ∑ j ∈ Finset.range (2 ^ k), (group.getD u []).getD j 0 := by
  intro u hu
  have hinit : ∀ p < 2 ^ (k - 0), ∀ q < 2 ^ (k - 0), ∀ u' < 2 ^ 0,
      (group.getD p []).getD (q * 2 ^ 0 + u') 0 =
        ∑ j ∈ Finset.range (2 ^ 0),
          (group.getD (p * 2 ^ 0 + u') []).getD (q + j * 2 ^ (k - 0)) 0 := by
    intro p hp q hq u' hu'
    have hu0 : u' = 0 := by simpa using hu'
    subst hu0
    simp
  have h := collapseAux_spec k (fun p q => (group.getD p []).getD q 0) (2 ^ k) 0
    group (Nat.zero_le k) (le_of_lt (Nat.lt_two_pow k)) hlen hall hinit u hu
  simpa [butterflyGroupRef] using h

end VectorBuilder

/-- C3: for every non-empty sequence of `N` input vectors whose lanes all
have width `VL = 2 ^ k` = machineVL, with `N` a multiple of machineVL,
`multiReduction` succeeds and produces exactly `N / machineVL` output
vectors; output vector `i` equals the direct pairwise-sum reference
`butterflyGroupRef` — which combines input vectors
`[i * machineVL, (i+1) * machineVL)` in the butterfly network's exact
pairing order (`log2(machineVL)` iterations of `mergeHigh`/`mergeLow` plus
`add`, halving the active vector count each iteration) — and hence lane
`j` of output `i` is the sum of all lanes of input vector
`i * machineVL + j`. -/
theorem C3_multi_reduction_butterfly {α : Type} [AddCommMonoid α]
    (k : Nat) (inputs : List (List α))
    (hne : inputs.length ≠ 0)
    (hmod : inputs.length % 2 ^ k = 0)
    (hall : ∀ v ∈ inputs, v.length = 2 ^ k) :
    ∃ outs, VectorBuilder.multiReduction (2 ^ k) inputs = some outs ∧
      outs.length = inputs.length / 2 ^ k ∧
      (∀ i, i < inputs.length / 2 ^ k →
        outs.getD i [] = VectorBuilder.butterflyGroupRef (2 ^ k)
          (VectorBuilder.groupSlice inputs (i * 2 ^ k) (2 ^ k))) ∧
      (∀ i, i < inputs.length / 2 ^ k → ∀ j, j < 2 ^ k →
        (outs.getD i []).getD j 0 =
          ∑ l ∈ Finset.range (2 ^ k),
            (inputs.getD (i * 2 ^ k + j) []).getD l 0) := by
  have hpow : (0 : Nat) < 2 ^ k := Nat.pos_pow_of_pos _ (by omega)
  have hN : inputs.length / 2 ^ k * 2 ^ k = inputs.length :=
    Nat.div_mul_cancel (Nat.dvd_of_mod_eq_zero hmod)
  have hVL : VectorBuilder.getLengthOf1DVector (inputs.getD 0 []) = 2 ^ k :=
    hall _ (VectorBuilder.getD_mem inputs 0 [] (by omega))
  obtain ⟨out', hloop, hlen, _, hnew⟩ :=
    VectorBuilder.groupLoop_sim k (inputs.length / 2 ^ k) 0 inputs []
      hall (by omega)
  have hmr : VectorBuilder.multiReduction (2 ^ k) inputs =
      VectorBuilder.groupLoop (2 ^ k) (inputs.length / 2 ^ k) 0 inputs [] := by
    have hVL2 : (inputs[0]?.getD []).length = 2 ^ k := by
      simpa [VectorBuilder.getLengthOf1DVector] using hVL
    have hany : (inputs.any fun v =>
        VectorBuilder.getLengthOf1DVector v ≠
          VectorBuilder.getLengthOf1DVector (inputs.getD 0 [])) = false := by
      rw [List.any_eq_false]
      intro v hv
      simp [VectorBuilder.getLengthOf1DVector, hall v hv, hVL2]
    have hVL3 : VectorBuilder.getLengthOf1DVector (inputs[0]?.getD []) = 2 ^ k :=
      hVL2
    have hnoex : ¬ ∃ x ∈ inputs,
        ¬ VectorBuilder.getLengthOf1DVector x =
          VectorBuilder.getLengthOf1DVector (inputs[0]?.getD []) := by
      intro hex
      obtain ⟨x, hx, hxne⟩ := hex
      apply hxne
      show x.length = (inputs[0]?.getD []).length
      rw [hall x hx, hVL2]
    simp [VectorBuilder.multiReduction, hne, hmod, hVL, hany]
    rw [if_pos hVL3, if_neg hnoex]
  have hout : ∀ i, i < inputs.length / 2 ^ k →
      out'.getD i [] = VectorBuilder.butterflyGroupRef (2 ^ k)
        (VectorBuilder.groupSlice inputs (i * 2 ^ k) (2 ^ k)) := by
    intro i hi
    have h := hnew i hi
    simpa using h
  refine ⟨out', by rw [hmr]; exact hloop, by simpa using hlen, hout, ?_⟩
  intro i hi j hj
  have hb : i * 2 ^ k + 2 ^ k ≤ inputs.length := by
    have h1 : (i + 1) * 2 ^ k ≤ inputs.length / 2 ^ k * 2 ^ k :=
      Nat.mul_le_mul_right _ (by omega)
    have h2 : (i + 1) * 2 ^ k = i * 2 ^ k + 2 ^ k := by ring
    omega
  rw [hout i hi,
    VectorBuilder.butterflyGroupRef_lanes k _
      (VectorBuilder.groupSlice_length _ _ _ hb)
      (fun v hv => hall v (VectorBuilder.groupSlice_mem _ _ _ v hv)) j hj,
    VectorBuilder.groupSlice_getD inputs (i * 2 ^ k) (2 ^ k) j hj hb]

theorem C3_multi_reduction_butterfly_witness :
    ∃ outs, VectorBuilder.multiReduction (2 ^ 1) [[(1 : Int), 2], [3, 4]] =
        some outs ∧
      outs.length = [[(1 : Int), 2], [3, 4]].length / 2 ^ 1 ∧
      (∀ i, i < [[(1 : Int), 2], [3, 4]].length / 2 ^ 1 →
        outs.getD i [] = VectorBuilder.butterflyGroupRef (2 ^ 1)
          (VectorBuilder.groupSlice [[(1 : Int), 2], [3, 4]] (i * 2 ^ 1)
            (2 ^ 1))) ∧
      (∀ i, i < [[(1 : Int), 2], [3, 4]].length / 2 ^ 1 → ∀ j, j < 2 ^ 1 →
        (outs.getD i []).getD j 0 =
          ∑ l ∈ Finset.range (2 ^ 1),
            ([[(1 : Int), 2], [3, 4]].getD (i * 2 ^ 1 + j) []).getD l 0) :=
  C3_multi_reduction_butterfly 1 [[(1 : Int), 2], [3, 4]] (by decide) (by decide)
    (by intro v hv; fin_cases hv <;> rfl)

end OnnxMlir
